import Mathlib

/-!
Shallow embedding of the pyplugs plug-in registry (src/pyplugs/_plugins.py,
v0.2.2) in Lean 4.

Python dictionaries preserve insertion order, so every level of the registry
`_PLUGINS : Dict[str, Dict[str, Dict[str, PluginInfo]]]` is modelled as an
association list whose update operation (`dictSet`) replaces an existing key
in place and appends a fresh key at the end, exactly like `d[k] = v`.

The host import machinery (`importlib.import_module`, `importlib.resources`)
is an external collaborator; it is modelled as a `Loader` value: loading a
module either performs a list of registration events (the `@pyplugs.register`
calls executed by the module's top-level code, possibly followed by an
exception) or fails, and enumerating a package's resources either yields the
file names or fails.  Python's `sorted` is a stable sort on the decorated
keys; it is modelled by `List.insertionSort`, which is stable and therefore
produces the identical output list.
-/

namespace PyPlugs

/-! ### Python dictionaries as insertion-ordered association lists -/

/-- Lookup in an insertion-ordered dictionary (`d[k]`, first binding wins;
keys are unique in every reachable state). -/
def dictLookup {β : Type} : List (String × β) → String → Option β
  | [], _ => none
  | (k, v) :: rest, key => if k = key then some v else dictLookup rest key

/-- Assignment `d[k] = v`: replace the binding in place when the key exists,
append at the end otherwise (Python dicts keep insertion order). -/
def dictSet {β : Type} : List (String × β) → String → β → List (String × β)
  | [], key, val => [(key, val)]
  | (k, v) :: rest, key, val =>
    if k = key then (k, val) :: rest else (k, v) :: dictSet rest key val

/-- The keys of a dictionary, in insertion order (`d.keys()`). -/
def dictKeys {β : Type} (d : List (String × β)) : List String := d.map Prod.fst

/-- Membership test `k in d`. -/
def dictContains {β : Type} (d : List (String × β)) (key : String) : Bool :=
  (dictLookup d key).isSome

/-! ### String helpers translated from the Python operations used by the code -/

/-- The single-quote character, used by Python `repr` on strings. -/
def squote : Char := Char.ofNat 39

/-- Model of Python `repr` for the plain identifier-like strings handled by
pyplugs (no embedded quotes or escapes): wrap in single quotes. -/
def pyRepr (s : String) : String := String.mk (squote :: (s.toList ++ [squote]))

/-- Whether `needle` is a leading segment of `haystack` (character lists). -/
def leadMatch : List Char → List Char → Bool
  | [], _ => true
  | _ :: _, [] => false
  | a :: as, b :: bs => a = b && leadMatch as bs

/-- Whether `needle` occurs contiguously inside `haystack`; models Python's
substring test `needle in haystack`. -/
def hasSub : List Char → List Char → Bool
  | haystack, needle =>
    match haystack with
    | [] => needle.isEmpty
    | _ :: rest => leadMatch needle haystack || hasSub rest needle

/-- Python `needle in haystack` on strings. -/
def strContains (haystack needle : String) : Bool := hasSub haystack.toList needle.toList

/-- Python `s.rpartition(".")` restricted to the two components the code
uses: split at the last dot into `(before, after)`; when there is no dot the
result is `("", s)` (matching `("", "", s)` in Python). -/
def rpartitionDotList : List Char → Option (List Char × List Char)
  | [] => none
  | c :: rest =>
    match rpartitionDotList rest with
    | some (pre, post) => some (c :: pre, post)
    | none => if c = '.' then some ([], rest) else none

/-- See `rpartitionDotList`. -/
def rpartitionDot (s : String) : String × String :=
  match rpartitionDotList s.toList with
  | some (pre, post) => (String.mk pre, String.mk post)
  | none => ("", s)

/-- Python `s.partition("\n\n")` restricted to the two components the code
uses: the part before the first blank line, and the part after it (`none`
when no blank line occurs, in which case Python yields `(s, "", "")`). -/
def partitionBlankLine : List Char → List Char × Option (List Char)
  | [] => ([], none)
  | '\n' :: '\n' :: rest => ([], some rest)
  | c :: rest =>
    let (pre, post) := partitionBlankLine rest
    (c :: pre, post)

/-- Python whitespace for `str.strip()`. -/
def isPyWs (c : Char) : Bool :=
  c = ' ' || c = '\t' || c = '\n' || c = '\r' || c = Char.ofNat 11 || c = Char.ofNat 12

/-- Python `str.strip()`. -/
def pyStrip (s : String) : String :=
  String.mk (((s.toList.dropWhile isPyWs).reverse.dropWhile isPyWs).reverse)

/-- Split a character list at newline characters. -/
def splitNl : List Char → List (List Char)
  | [] => [[]]
  | '\n' :: rest => [] :: splitNl rest
  | c :: rest =>
    match splitNl rest with
    | [] => [[c]]
    | l :: ls => (c :: l) :: ls

/-- Join lines with newline characters (inverse of `splitNl`). -/
def joinNl : List (List Char) → List Char
  | [] => []
  | [l] => l
  | l :: ls => l ++ '\n' :: joinNl ls

/-- Indentation characters considered by `textwrap.dedent`. -/
def isIndentChar (c : Char) : Bool := c = ' ' || c = '\t'

/-- Longest common leading segment of two character lists. -/
def commonLead : List Char → List Char → List Char
  | a :: as, b :: bs => if a = b then a :: commonLead as bs else []
  | _, _ => []

/-- Model of `textwrap.dedent`: lines of only whitespace are normalized to
empty lines; the longest common whitespace margin of the remaining lines is
removed from each of them. -/
def dedent (s : String) : String :=
  let lines := splitNl s.toList
  let norm := lines.map (fun l => if l.all isIndentChar then l.takeWhile (fun _ => false) else l)
  let contentLines := norm.filter (fun l => !l.isEmpty)
  let margins := contentLines.map (fun l => l.takeWhile isIndentChar)
  let margin :=
    match margins with
    | [] => []
    | m :: ms => ms.foldl commonLead m
  String.mk (joinNl (norm.map (fun l => if l.isEmpty then l else l.drop margin.length)))

/-! ### Data model -/

/-- Information about one plug-in (the `PluginInfo` named tuple).  The
`sort_value` field is declared `float` in the source but only ever holds the
integral values supplied to `register`; it is modelled as `Int`. -/
structure PluginInfo (π : Type) where
  package_name : String
  plugin_name : String
  func_name : String
  func : π
  description : String
  doc : String
  module_doc : String
  sort_value : Int
  label : Option String
deriving Repr, DecidableEq

/-- The attributes of a Python function object that `register` reads:
`__module__`, `__name__`, `__doc__`, and the callable itself. -/
structure Func (π : Type) where
  module : String
  name : String
  doc : Option String
  call : π
deriving Repr, DecidableEq

/-- The registry store `_PLUGINS`: package name to plug-in name to function
name to record, every level in insertion order. -/
abbrev FuncDict (π : Type) := List (String × PluginInfo π)
abbrev PkgDict (π : Type) := List (String × FuncDict π)
abbrev Registry (π : Type) := List (String × PkgDict π)

/-- One execution of the `@pyplugs.register` decorator during a module's
top-level code: the decorated function object, the defining module's
docstring (`sys.modules[func.__module__].__doc__`), and the decorator
arguments. -/
structure RegEvent (π : Type) where
  func : Func π
  module_doc : Option String
  sort_value : Int
  label : Option String
deriving Repr, DecidableEq

/-- A Python exception as classified by the code: either an instance of
`ImportError` (carrying `err.msg`) or any other exception. -/
inductive PyExc where
  | importError (msg : String)
  | other (descr : String)
deriving Repr, DecidableEq

/-- Outcome of executing a module's top-level code: the registration events
it performed, in order, followed by an optional exception (registrations
made before the exception persist, as mutations of the global store do in
Python). -/
structure LoadResult (π : Type) where
  regs : List (RegEvent π)
  exc : Option PyExc
deriving Repr, DecidableEq

/-- The host import machinery: `load` models `importlib.import_module` on a
fully qualified module name, `contents` models `importlib.resources.contents`
on a package name. -/
structure Loader (π : Type) where
  load : String → LoadResult π
  contents : String → Except PyExc (List String)

/-- Process state: the registry store plus the log of module names passed to
`Loader.load` (the observable import counter). -/
structure St (π : Type) where
  plugins : Registry π
  loaded : List String
deriving Repr

/-- The errors an operation can surface: the three pyplugs exception kinds
(with their formatted message) or an unconverted Python exception that
propagates unchanged. -/
inductive Failure where
  | unknownPackage (msg : String)
  | unknownPlugin (msg : String)
  | unknownPluginFunction (msg : String)
  | py (exc : PyExc)
deriving Repr, DecidableEq

/-! ### Registration (`register`, lines 82-116) -/

/-- Body of `decorator_register`: derive the metadata from the function
object, build a `PluginInfo` record, store it at
`_PLUGINS[package_name][plugin_name][func_name]` (creating the intermediate
dictionaries as `setdefault` does), and return the original function. -/
def decorator_register {π : Type} (plugins : Registry π) (sort_value : Int)
    (label : Option String) (module_doc : Option String) (f : Func π) :
    Registry π × Func π :=
  let (package_name, plugin_name) := rpartitionDot f.module
  let (descriptionChars, docRest) := partitionBlankLine (f.doc.getD "").toList
  let func_name := f.name
  let record : PluginInfo π :=
    { package_name := package_name
      plugin_name := plugin_name
      func_name := func_name
      func := f.call
      description := String.mk descriptionChars
      doc := pyStrip (dedent (String.mk (docRest.getD [])))
      module_doc := module_doc.getD ""
      sort_value := sort_value
      label := label }
  let pkg_info := (dictLookup plugins package_name).getD []
  let plugin_info := (dictLookup pkg_info plugin_name).getD []
  let plugin_info := dictSet plugin_info func_name record
  let pkg_info := dictSet pkg_info plugin_name plugin_info
  (dictSet plugins package_name pkg_info, f)

/-- The public `register` decorator.  Both invocation forms (`@register` and
`@register(sort_value=..., label=...)`) end in one call of
`decorator_register` on the decorated function. -/
def register {π : Type} (plugins : Registry π) (sort_value : Int)
    (label : Option String) (module_doc : Option String) (f : Func π) :
    Registry π × Func π :=
  decorator_register plugins sort_value label module_doc f

/-- Effect on the store of one `@pyplugs.register` execution during a module
load. -/
def applyEvent {π : Type} (plugins : Registry π) (e : RegEvent π) : Registry π :=
  (decorator_register plugins e.sort_value e.label e.module_doc e.func).1

/-- Effect on the store of a module's top-level code: its registration
events in order. -/
def applyEvents {π : Type} (plugins : Registry π) (evs : List (RegEvent π)) : Registry π :=
  evs.foldl applyEvent plugins

/-! ### Discovery (`_import`, lines 213-230 and `_import_all`, lines 233-251) -/

/-- The fast-path test `package in _PLUGINS and plugin in _PLUGINS[package]`. -/
def cached {π : Type} (plugins : Registry π) (package plugin : String) : Bool :=
  match dictLookup plugins package with
  | some pkg_info => dictContains pkg_info plugin
  | none => false

/-- Translation of `_import`: return at once when the plug-in is cached;
otherwise ask the Loader for `f"{package}.{plugin}"`, apply the
registrations its top-level code performed, and classify a resulting
`ImportError` by matching `repr` of the module name, then of the package
name, against its message; all other exceptions propagate unchanged. -/
def _import {π : Type} (L : Loader π) (s : St π) (package plugin : String) :
    Except Failure Unit × St π :=
  if cached s.plugins package plugin then (Except.ok (), s)
  else
    let plugin_module := package ++ "." ++ plugin
    let r := L.load plugin_module
    let s1 : St π := ⟨applyEvents s.plugins r.regs, s.loaded ++ [plugin_module]⟩
    match r.exc with
    | none => (Except.ok (), s1)
    | some (PyExc.importError msg) =>
      if strContains msg (pyRepr plugin_module) then
        (Except.error (Failure.unknownPlugin
          ("Plugin " ++ pyRepr plugin ++ " not found in " ++ pyRepr package)), s1)
      else if strContains msg (pyRepr package) then
        (Except.error (Failure.unknownPackage
          ("Package " ++ pyRepr package ++ " does not exist")), s1)
      else (Except.error (Failure.py (PyExc.importError msg)), s1)
    | some e => (Except.error (Failure.py e), s1)

/-- Record that a package was scanned: `_PLUGINS.setdefault(package, {})`. -/
def setdefaultPkg {π : Type} (plugins : Registry π) (package : String) : Registry π :=
  if dictContains plugins package then plugins else plugins ++ [(package, [])]

/-- The per-member loop of `_import_all`: `try: _import(...) except
ImportError: pass`.  Only failures that are instances of `ImportError` are
swallowed; the converted `UnknownPluginError` and `UnknownPackageError` are
not `ImportError` subclasses, and any other exception propagates. -/
def importLoop {π : Type} (L : Loader π) (s : St π) (package : String) :
    List String → Except Failure Unit × St π
  | [] => (Except.ok (), s)
  | p :: rest =>
    let (res, s1) := _import L s package p
    match res with
    | Except.ok _ => importLoop L s1 package rest
    | Except.error (Failure.py (PyExc.importError _)) => importLoop L s1 package rest
    | Except.error e => (Except.error e, s1)

/-- Translation of `_import_all`: enumerate the package's resources
(an `ImportError` becomes `UnknownPackageError`), note the attempt with a
`setdefault`, keep the `.py` resources not starting with an underscore with
their extension stripped, and run the per-member loop. -/
def _import_all {π : Type} (L : Loader π) (s : St π) (package : String) :
    Except Failure Unit × St π :=
  match L.contents package with
  | Except.error (PyExc.importError msg) =>
    (Except.error (Failure.unknownPackage msg), s)
  | Except.error e => (Except.error (Failure.py e), s)
  | Except.ok all_resources =>
    let s1 : St π := ⟨setdefaultPkg s.plugins package, s.loaded⟩
    let plugins := (all_resources.filter
        (fun r => strEndsPy r && !(strStartsUnderscore r))).map stripPyExt
    importLoop L s1 package plugins
where
  /-- Python `r.endswith(".py")`. -/
  strEndsPy (r : String) : Bool := leadMatch ".py".toList.reverse r.toList.reverse
  /-- Python `r.startswith("_")`. -/
  strStartsUnderscore (r : String) : Bool := leadMatch "_".toList r.toList
  /-- Python `r[:-3]`. -/
  stripPyExt (r : String) : String := String.mk (r.toList.take (r.toList.length - 3))

/-! ### Lookup and dispatch (`funcs`, `labels`, `info`, `exists`, `get`,
`call`, `names`, lines 119-210) -/

/-- Translation of `funcs`: import the plug-in, then list, in registration
order, the function names whose record's label equals the given label.  The
raw `_PLUGINS[package][plugin]` subscripts raise an uncaught `KeyError` when
the plug-in registered nothing. -/
def funcs {π : Type} (L : Loader π) (s : St π) (package plugin : String)
    (label : Option String) : Except Failure (List String) × St π :=
  let (res, s1) := _import L s package plugin
  match res with
  | Except.error e => (Except.error e, s1)
  | Except.ok _ =>
    match (dictLookup s1.plugins package).bind (fun d => dictLookup d plugin) with
    | none => (Except.error (Failure.py (PyExc.other "KeyError")), s1)
    | some plugin_info =>
      (Except.ok ((plugin_info.filter (fun kv => kv.2.label = label)).map Prod.fst), s1)

/-- Translation of `labels`: import the plug-in, then collect the set of
non-`None` labels among its records (a Python `set`, modelled as `Finset`). -/
def labels {π : Type} (L : Loader π) (s : St π) (package plugin : String) :
    Except Failure (Finset String) × St π :=
  let (res, s1) := _import L s package plugin
  match res with
  | Except.error e => (Except.error e, s1)
  | Except.ok _ =>
    match (dictLookup s1.plugins package).bind (fun d => dictLookup d plugin) with
    | none => (Except.error (Failure.py (PyExc.other "KeyError")), s1)
    | some plugin_info =>
      (Except.ok (plugin_info.filterMap (fun kv => kv.2.label)).toFinset, s1)

/-- Python `str(label)` for the optional label in an f-string. -/
def labelStr : Option String → String
  | none => "None"
  | some l => l

/-- Translation of `info`: import the plug-in; a `KeyError` on
`_PLUGINS[package][plugin]` becomes `UnknownPluginError`; an omitted
function name defaults to `next(iter(funcs(package, plugin, label) + [""]))`;
then the resolved name is looked up (a miss is `UnknownPluginFunctionError`)
and the found record's label is checked against the requested one (a
mismatch is also `UnknownPluginFunctionError`). -/
def info {π : Type} (L : Loader π) (s : St π) (package plugin : String)
    (func : Option String) (label : Option String) :
    Except Failure (PluginInfo π) × St π :=
  let (res, s1) := _import L s package plugin
  match res with
  | Except.error e => (Except.error e, s1)
  | Except.ok _ =>
    match (dictLookup s1.plugins package).bind (fun d => dictLookup d plugin) with
    | none =>
      (Except.error (Failure.unknownPlugin
        ("Could not find any plug-in named " ++ pyRepr plugin ++ " inside "
          ++ pyRepr package
          ++ ". Use @pyplugs.register to register functions as plug-ins")), s1)
    | some plugin_info =>
      let (resolved, s2) :=
        match func with
        | some f => (Except.ok f, s1)
        | none =>
          let (fr, s2) := funcs L s1 package plugin label
          match fr with
          | Except.error e => (Except.error e, s2)
          | Except.ok l => (Except.ok (l.headD ""), s2)
      match resolved with
      | Except.error e => (Except.error e, s2)
      | Except.ok fname =>
        match dictLookup plugin_info fname with
        | none =>
          (Except.error (Failure.unknownPluginFunction
            ("Could not find any function named " ++ pyRepr fname ++ " inside "
              ++ pyRepr (package ++ "." ++ plugin)
              ++ ". Use @pyplugs.register to register plug-in functions")), s2)
        | some func_info =>
          if func_info.label = label then (Except.ok func_info, s2)
          else
            (Except.error (Failure.unknownPluginFunction
              ("Could not find "
                ++ pyRepr (package ++ "." ++ plugin ++ "." ++ fname)
                ++ " with label " ++ pyRepr (labelStr label)
                ++ ". Use @pyplugs.register to register plug-in functions")), s2)

/-- Translation of `exists`: true at once when cached; otherwise attempt the
import, converting exactly the two not-found error kinds to `False`, letting
any other failure propagate, and report whether the plug-in is now cached. -/
def exists' {π : Type} (L : Loader π) (s : St π) (package plugin : String) :
    Except Failure Bool × St π :=
  if cached s.plugins package plugin then (Except.ok true, s)
  else
    let (res, s1) := _import L s package plugin
    match res with
    | Except.error (Failure.unknownPlugin _) => (Except.ok false, s1)
    | Except.error (Failure.unknownPackage _) => (Except.ok false, s1)
    | Except.error e => (Except.error e, s1)
    | Except.ok _ => (Except.ok (cached s1.plugins package plugin), s1)

/-- Translation of `get`: `info(...).func`. -/
def get {π : Type} (L : Loader π) (s : St π) (package plugin : String)
    (func : Option String) (label : Option String) : Except Failure π × St π :=
  let (res, s1) := info L s package plugin func label
  match res with
  | Except.error e => (Except.error e, s1)
  | Except.ok r => (Except.ok r.func, s1)

/-- Translation of `call` for plug-in callables of type `α → β`: resolve the
function with `get` and apply it to the (positional and keyword) arguments,
forwarded verbatim.  Whatever the function produces — including an encoding
of a raised exception in `β` — is returned unwrapped. -/
def call {α β : Type} (L : Loader (α → β)) (s : St (α → β)) (package plugin : String)
    (func : Option String) (label : Option String) (args : α) :
    Except Failure β × St (α → β) :=
  let (res, s1) := get L s package plugin func label
  match res with
  | Except.error e => (Except.error e, s1)
  | Except.ok f => (Except.ok (f args), s1)

/-- The decoration pass of `sorted(_PLUGINS[package].keys(), key=lambda p:
info(package, p).sort_value)`: evaluate the key function on each element in
list order (as `sorted` does before comparing), threading the state and
propagating the first failure. -/
def keyLoop {π : Type} (L : Loader π) (s : St π) (package : String) :
    List String → Except Failure (List (String × Int)) × St π
  | [] => (Except.ok [], s)
  | p :: rest =>
    let (res, s1) := info L s package p none none
    match res with
    | Except.error e => (Except.error e, s1)
    | Except.ok r =>
      let (res2, s2) := keyLoop L s1 package rest
      match res2 with
      | Except.error e => (Except.error e, s2)
      | Except.ok pairs => (Except.ok ((p, r.sort_value) :: pairs), s2)

/-- Ordering used by `sorted` on the decorated keys. -/
def bySortValue (x y : String × Int) : Prop := x.2 ≤ y.2

instance : DecidableRel bySortValue := fun x y => Int.decLe x.2 y.2

instance : IsTotal (String × Int) bySortValue := ⟨fun a b => Int.le_total a.2 b.2⟩

instance : IsTrans (String × Int) bySortValue := ⟨fun _ _ _ => Int.le_trans⟩

/-- Translation of `names`: import all plug-ins of the package, then return
its plug-in names sorted ascending by each one's default `sort_value`.
Python's `sorted` is stable; it is modelled by the stable
`List.insertionSort`, which yields the identical list. -/
def names {π : Type} (L : Loader π) (s : St π) (package : String) :
    Except Failure (List String) × St π :=
  let (res, s1) := _import_all L s package
  match res with
  | Except.error e => (Except.error e, s1)
  | Except.ok _ =>
    match dictLookup s1.plugins package with
    | none => (Except.error (Failure.py (PyExc.other "KeyError")), s1)
    | some pkg_info =>
      let (res2, s2) := keyLoop L s1 package (dictKeys pkg_info)
      match res2 with
      | Except.error e => (Except.error e, s2)
      | Except.ok pairs =>
        (Except.ok ((pairs.insertionSort bySortValue).map Prod.fst), s2)

/-! ### Lemmas about the dictionary model -/

theorem dictLookup_dictSet_self {β : Type} (d : List (String × β)) (k : String) (v : β) :
    dictLookup (dictSet d k v) k = some v := by
  induction d with
  | nil => simp [dictSet, dictLookup]
  | cons kv rest ih =>
    obtain ⟨k1, v1⟩ := kv
    by_cases h : k1 = k
    · simp [dictSet, h, dictLookup]
    · simp [dictSet, h, dictLookup, ih]

theorem dictLookup_dictSet_ne {β : Type} (d : List (String × β)) (k k2 : String) (v : β)
    (h : k2 ≠ k) : dictLookup (dictSet d k v) k2 = dictLookup d k2 := by
  induction d with
  | nil => simp [dictSet, dictLookup, Ne.symm h]
  | cons kv rest ih =>
    obtain ⟨k1, v1⟩ := kv
    by_cases h1 : k1 = k
    · subst h1
      simp [dictSet, dictLookup, Ne.symm h]
    · simp [dictSet, h1, dictLookup, ih]

theorem dictContains_true_iff {β : Type} (d : List (String × β)) (k : String) :
    dictContains d k = true ↔ (dictLookup d k).isSome := by
  simp [dictContains]

theorem dictContains_dictSet_self {β : Type} (d : List (String × β)) (k : String) (v : β) :
    dictContains (dictSet d k v) k = true := by
  simp [dictContains, dictLookup_dictSet_self]

theorem dictContains_dictSet_mono {β : Type} (d : List (String × β)) (k k2 : String) (v : β)
    (h : dictContains d k2 = true) : dictContains (dictSet d k v) k2 = true := by
  by_cases h2 : k2 = k
  · subst h2; exact dictContains_dictSet_self d k2 v
  · simpa [dictContains, dictLookup_dictSet_ne d k k2 v h2] using h

theorem dictKeys_dictSet_contains {β : Type} (d : List (String × β)) (k : String) (v : β)
    (h : dictContains d k = true) : dictKeys (dictSet d k v) = dictKeys d := by
  induction d with
  | nil => simp [dictContains, dictLookup] at h
  | cons kv rest ih =>
    obtain ⟨k1, v1⟩ := kv
    by_cases h1 : k1 = k
    · simp [dictSet, h1, dictKeys]
    · simp only [dictContains, dictLookup, if_neg h1] at h
      have h2 := ih (by simpa [dictContains] using h)
      simp only [dictKeys] at h2
      simp [dictSet, h1, dictKeys, h2]

theorem dictKeys_dictSet_fresh {β : Type} (d : List (String × β)) (k : String) (v : β)
    (h : dictContains d k = false) : dictKeys (dictSet d k v) = dictKeys d ++ [k] := by
  induction d with
  | nil => simp [dictSet, dictKeys]
  | cons kv rest ih =>
    obtain ⟨k1, v1⟩ := kv
    by_cases h1 : k1 = k
    · simp [dictContains, dictLookup, h1] at h
    · simp only [dictContains, dictLookup, if_neg h1] at h
      have h2 := ih (by simpa [dictContains] using h)
      simp only [dictKeys] at h2
      simp [dictSet, h1, dictKeys, h2]

theorem mem_dictKeys_iff {β : Type} (d : List (String × β)) (k : String) :
    k ∈ dictKeys d ↔ (dictLookup d k).isSome := by
  induction d with
  | nil => simp [dictKeys, dictLookup]
  | cons kv rest ih =>
    obtain ⟨k1, v1⟩ := kv
    by_cases h : k1 = k
    · subst h
      simp [dictKeys, dictLookup]
    · simp only [dictKeys, List.map_cons, List.mem_cons] at ih ⊢
      simp [dictLookup, h, ih, Ne.symm h]

theorem dictLookup_mem {β : Type} {d : List (String × β)} {k : String} {v : β}
    (h : dictLookup d k = some v) : (k, v) ∈ d := by
  induction d with
  | nil => simp [dictLookup] at h
  | cons kv rest ih =>
    obtain ⟨k1, v1⟩ := kv
    by_cases h1 : k1 = k
    · subst h1
      have h2 : some v1 = some v := by simpa [dictLookup] using h
      injection h2 with h2
      simp [h2]
    · simp only [dictLookup, if_neg h1] at h
      exact List.mem_cons_of_mem _ (ih h)

theorem dictLookup_of_mem_nodup {β : Type} {d : List (String × β)} {k : String} {v : β}
    (hnd : (dictKeys d).Nodup) (h : (k, v) ∈ d) : dictLookup d k = some v := by
  induction d with
  | nil => simp at h
  | cons kv rest ih =>
    obtain ⟨k1, v1⟩ := kv
    simp only [dictKeys, List.map_cons, List.nodup_cons] at hnd
    rcases List.mem_cons.mp h with h1 | h1
    · cases h1
      simp [dictLookup]
    · by_cases h2 : k1 = k
      · subst h2
        exact absurd (by simpa [dictKeys] using List.mem_map_of_mem Prod.fst h1) hnd.1
      · simpa [dictLookup, h2] using ih hnd.2 h1

theorem dictKeys_nodup_dictSet {β : Type} {d : List (String × β)} (k : String) (v : β)
    (hnd : (dictKeys d).Nodup) : (dictKeys (dictSet d k v)).Nodup := by
  cases h : dictContains d k with
  | true => rw [dictKeys_dictSet_contains d k v h]; exact hnd
  | false =>
    rw [dictKeys_dictSet_fresh d k v h]
    simp only [List.nodup_append, List.nodup_singleton, true_and]
    refine ⟨hnd, ?_⟩
    intro a ha hb
    simp only [List.mem_singleton] at hb
    subst hb
    rw [mem_dictKeys_iff] at ha
    simp [dictContains, ha] at h

theorem dictSet_ne_nil {β : Type} (d : List (String × β)) (k : String) (v : β) :
    dictSet d k v ≠ [] := by
  cases d with
  | nil => simp [dictSet]
  | cons kv rest =>
    obtain ⟨k1, v1⟩ := kv
    by_cases h : k1 = k <;> simp [dictSet, h]

/-! ### Lemmas about caching and registration -/

theorem cached_true_iff {π : Type} (P : Registry π) (pkg plug : String) :
    cached P pkg plug = true ↔
      ((dictLookup P pkg).bind (fun d => dictLookup d plug)).isSome := by
  unfold cached
  cases h : dictLookup P pkg with
  | none => simp
  | some d => simp [dictContains]

theorem cached_false_iff {π : Type} (P : Registry π) (pkg plug : String) :
    cached P pkg plug = false ↔
      (dictLookup P pkg).bind (fun d => dictLookup d plug) = none := by
  rw [← Bool.not_eq_true, cached_true_iff]
  cases (dictLookup P pkg).bind (fun d => dictLookup d plug) <;> simp

theorem applyEvent_cached_self {π : Type} (P : Registry π) (e : RegEvent π) :
    cached (applyEvent P e) (rpartitionDot e.func.module).1
      (rpartitionDot e.func.module).2 = true := by
  rw [cached_true_iff]
  unfold applyEvent decorator_register
  rw [dictLookup_dictSet_self]
  simp [dictLookup_dictSet_self]

theorem applyEvent_cached_mono {π : Type} (P : Registry π) (e : RegEvent π)
    (pkg plug : String) (h : cached P pkg plug = true) :
    cached (applyEvent P e) pkg plug = true := by
  rw [cached_true_iff] at h ⊢
  unfold applyEvent decorator_register
  simp only []
  set pkgName := (rpartitionDot e.func.module).1 with hp
  set plugName := (rpartitionDot e.func.module).2 with hq
  by_cases h1 : pkg = pkgName
  · subst h1
    rw [dictLookup_dictSet_self]
    simp only [Option.some_bind]
    by_cases h2 : plug = plugName
    · subst h2
      rw [dictLookup_dictSet_self]
      simp
    · rw [dictLookup_dictSet_ne _ _ _ _ h2]
      cases h3 : dictLookup P pkgName with
      | none => simp [h3] at h
      | some d => simpa [h3] using h
  · rw [dictLookup_dictSet_ne _ _ _ _ h1]
    exact h

theorem applyEvents_cached_mono {π : Type} (P : Registry π) (evs : List (RegEvent π))
    (pkg plug : String) (h : cached P pkg plug = true) :
    cached (applyEvents P evs) pkg plug = true := by
  induction evs generalizing P with
  | nil => exact h
  | cons e rest ih => exact ih (applyEvent P e) (applyEvent_cached_mono P e pkg plug h)

theorem applyEvents_cached_of_head {π : Type} (P : Registry π) (e : RegEvent π)
    (rest : List (RegEvent π)) :
    cached (applyEvents P (e :: rest)) (rpartitionDot e.func.module).1
      (rpartitionDot e.func.module).2 = true := by
  exact applyEvents_cached_mono _ rest _ _ (applyEvent_cached_self P e)

theorem _import_cached {π : Type} (L : Loader π) (s : St π) (pkg plug : String)
    (h : cached s.plugins pkg plug = true) : _import L s pkg plug = (Except.ok (), s) := by
  unfold _import
  rw [h]
  simp

theorem _import_plugins_cases {π : Type} (L : Loader π) (s : St π) (pkg plug : String) :
    (_import L s pkg plug).2.plugins = s.plugins ∨
      (_import L s pkg plug).2.plugins
        = applyEvents s.plugins (L.load (pkg ++ "." ++ plug)).regs := by
  unfold _import
  cases h : cached s.plugins pkg plug
  · simp only [h, Bool.false_eq_true, if_false]
    right
    rcases (L.load (pkg ++ "." ++ plug)).exc with _ | e
    · rfl
    · cases e with
      | importError msg =>
        simp only []
        split
        · rfl
        · split <;> rfl
      | other d => rfl
  · simp [h]

theorem _import_cached_mono {π : Type} (L : Loader π) (s : St π) (pkg plug a b : String)
    (h : cached s.plugins a b = true) :
    cached (_import L s pkg plug).2.plugins a b = true := by
  rcases _import_plugins_cases L s pkg plug with h1 | h1 <;> rw [h1]
  · exact h
  · exact applyEvents_cached_mono _ _ _ _ h

/-- The `PluginInfo` record that one `decorator_register` call stores, named
for use in lemmas (with `a`, `c` the two components of
`f.__module__.rpartition(".")`). -/
def regRecord {π : Type} (sv : Int) (lab md : Option String) (f : Func π)
    (a c : String) : PluginInfo π :=
  { package_name := a
    plugin_name := c
    func_name := f.name
    func := f.call
    description := String.mk (partitionBlankLine (f.doc.getD "").toList).1
    doc := pyStrip (dedent (String.mk ((partitionBlankLine (f.doc.getD "").toList).2.getD [])))
    module_doc := md.getD ""
    sort_value := sv
    label := lab }

theorem decorator_register_eq {π : Type} (plugins : Registry π) (sv : Int)
    (lab md : Option String) (f : Func π) (a c : String)
    (hm : rpartitionDot f.module = (a, c)) :
    decorator_register plugins sv lab md f
      = (dictSet plugins a (dictSet ((dictLookup plugins a).getD []) c
          (dictSet ((dictLookup ((dictLookup plugins a).getD []) c).getD []) f.name
            (regRecord sv lab md f a c))), f) := by
  rcases hd : partitionBlankLine (f.doc.getD "").toList with ⟨dc, dr⟩
  simp only [decorator_register, regRecord, hm, hd]

/-- C1: round-trip of registration and dispatch.  `register` returns the
original function unmodified, and for a freshly registered function `f`,
`call` on `f`'s namespace, plug-in and function name with any arguments
returns exactly what invoking `f` directly on those arguments produces
(arguments forwarded verbatim, the result — including any encoded
exception — returned unwrapped), leaving the state untouched. -/
theorem claim_C1_register_call_roundtrip {α β : Type} (plugins : Registry (α → β))
    (sv : Int) (lab md : Option String) (f : Func (α → β)) (L : Loader (α → β))
    (log : List String) (args : α) :
    (register plugins sv lab md f).2 = f ∧
    call L ⟨(register plugins sv lab md f).1, log⟩ (rpartitionDot f.module).1
        (rpartitionDot f.module).2 (some f.name) lab args
      = (Except.ok (f.call args), ⟨(register plugins sv lab md f).1, log⟩) := by
  rcases hm : rpartitionDot f.module with ⟨a, c⟩
  have hreg := decorator_register_eq plugins sv lab md f a c hm
  constructor
  · simp [register, hreg]
  · set r0 : PluginInfo (α → β) := regRecord sv lab md f a c with hr0
    set pi : FuncDict (α → β) :=
      dictSet ((dictLookup ((dictLookup plugins a).getD []) c).getD []) f.name r0 with hpi
    set P : Registry (α → β) :=
      dictSet plugins a (dictSet ((dictLookup plugins a).getD []) c pi) with hP
    have h1 : (register plugins sv lab md f).1 = P := by rw [register, hreg]
    have hbind : (dictLookup P a).bind (fun d => dictLookup d c) = some pi := by
      rw [hP, dictLookup_dictSet_self]
      simp [dictLookup_dictSet_self]
    have hc : cached P a c = true := by rw [cached_true_iff, hbind]; rfl
    have himp : _import L ⟨P, log⟩ a c = (Except.ok (), ⟨P, log⟩) :=
      _import_cached L ⟨P, log⟩ a c hc
    have hfn : dictLookup pi f.name = some r0 := by
      rw [hpi]; exact dictLookup_dictSet_self _ _ _
    rw [h1]
    simp only [call, get, info, himp, hbind, hfn]
    simp [hr0, regRecord]

/-- C8: outcome discrimination of `_import`.  It is a no-op when the store
already has the plug-in entry; otherwise the Loader runs the member's code
(whose registrations persist), and an `ImportError` whose message mentions
the module itself raises `UnknownPluginError`, one mentioning only the
package raises `UnknownPackageError`, and every other load-time failure
(an unmatched `ImportError` or any non-`ImportError` exception) propagates
unchanged. -/
theorem claim_C8_import_one_outcomes {π : Type} (L : Loader π) (s : St π)
    (pkg plug : String) :
    (cached s.plugins pkg plug = true → _import L s pkg plug = (Except.ok (), s)) ∧
    (cached s.plugins pkg plug = false →
      (_import L s pkg plug).2
        = ⟨applyEvents s.plugins (L.load (pkg ++ "." ++ plug)).regs,
           s.loaded ++ [pkg ++ "." ++ plug]⟩ ∧
      ((L.load (pkg ++ "." ++ plug)).exc = none →
        (_import L s pkg plug).1 = Except.ok ()) ∧
      (∀ msg, (L.load (pkg ++ "." ++ plug)).exc = some (PyExc.importError msg) →
        (strContains msg (pyRepr (pkg ++ "." ++ plug)) = true →
          (_import L s pkg plug).1 = Except.error (Failure.unknownPlugin
            ("Plugin " ++ pyRepr plug ++ " not found in " ++ pyRepr pkg))) ∧
        (strContains msg (pyRepr (pkg ++ "." ++ plug)) = false →
          strContains msg (pyRepr pkg) = true →
          (_import L s pkg plug).1 = Except.error (Failure.unknownPackage
            ("Package " ++ pyRepr pkg ++ " does not exist"))) ∧
        (strContains msg (pyRepr (pkg ++ "." ++ plug)) = false →
          strContains msg (pyRepr pkg) = false →
          (_import L s pkg plug).1 = Except.error (Failure.py (PyExc.importError msg)))) ∧
      (∀ d, (L.load (pkg ++ "." ++ plug)).exc = some (PyExc.other d) →
        (_import L s pkg plug).1 = Except.error (Failure.py (PyExc.other d)))) := by
  constructor
  · exact _import_cached L s pkg plug
  · intro h
    refine ⟨?_, ?_, ?_, ?_⟩
    · simp only [_import, h, Bool.false_eq_true, if_false]
      rcases (L.load (pkg ++ "." ++ plug)).exc with _ | e
      · rfl
      · cases e with
        | importError msg =>
          simp only []
          split
          · rfl
          · split <;> rfl
        | other d => rfl
    · intro he
      simp only [_import, h, Bool.false_eq_true, if_false, he]
    · intro msg he
      refine ⟨?_, ?_, ?_⟩
      · intro h1
        simp only [_import, h, Bool.false_eq_true, if_false, he, h1, if_true]
      · intro h1 h2
        simp only [_import, h, Bool.false_eq_true, if_false, he, h1, h2]
        simp
      · intro h1 h2
        simp only [_import, h, Bool.false_eq_true, if_false, he, h1, h2]
    · intro d he
      simp only [_import, h, Bool.false_eq_true, if_false, he]

/-! ### The registry well-formedness invariant -/

/-- Invariant of every reachable registry state: keys are unique at each
level and every stored function dictionary is nonempty (a plug-in key is
only ever created by a registration). -/
def WFRegistry {π : Type} (P : Registry π) : Prop :=
  (dictKeys P).Nodup ∧
  ∀ pkg d, dictLookup P pkg = some d →
    (dictKeys d).Nodup ∧
    ∀ plug fd, dictLookup d plug = some fd → (dictKeys fd).Nodup ∧ fd ≠ []

theorem WFRegistry_nil {π : Type} : WFRegistry ([] : Registry π) := by
  refine ⟨List.nodup_nil, ?_⟩
  intro pkg d h
  simp [dictLookup] at h

theorem WFRegistry_applyEvent {π : Type} {P : Registry π} (e : RegEvent π)
    (hWF : WFRegistry P) : WFRegistry (applyEvent P e) := by
  obtain ⟨hnd, hrest⟩ := hWF
  rcases hm : rpartitionDot e.func.module with ⟨a, c⟩
  have heq := decorator_register_eq P e.sort_value e.label e.module_doc e.func a c hm
  have h1 : applyEvent P e
      = dictSet P a (dictSet ((dictLookup P a).getD []) c
          (dictSet ((dictLookup ((dictLookup P a).getD []) c).getD []) e.func.name
            (regRecord e.sort_value e.label e.module_doc e.func a c))) := by
    unfold applyEvent
    rw [heq]
  rw [h1]
  have hpkg0 : (dictKeys ((dictLookup P a).getD [])).Nodup ∧
      ∀ plug fd, dictLookup ((dictLookup P a).getD []) plug = some fd →
        (dictKeys fd).Nodup ∧ fd ≠ [] := by
    cases h2 : dictLookup P a with
    | none => exact ⟨by simp [dictKeys], by intro plug fd h3; simp [dictLookup] at h3⟩
    | some d0 => simpa using hrest a d0 h2
  have hpi0 : (dictKeys ((dictLookup ((dictLookup P a).getD []) c).getD [])).Nodup := by
    cases h2 : dictLookup ((dictLookup P a).getD []) c with
    | none => simp [dictKeys]
    | some fd0 => simpa using (hpkg0.2 c fd0 h2).1
  refine ⟨dictKeys_nodup_dictSet a _ hnd, ?_⟩
  intro pkg d hd
  by_cases h2 : pkg = a
  · subst h2
    rw [dictLookup_dictSet_self] at hd
    cases hd
    refine ⟨dictKeys_nodup_dictSet c _ hpkg0.1, ?_⟩
    intro plug fd hfd
    by_cases h3 : plug = c
    · subst h3
      rw [dictLookup_dictSet_self] at hfd
      cases hfd
      exact ⟨dictKeys_nodup_dictSet _ _ hpi0, dictSet_ne_nil _ _ _⟩
    · rw [dictLookup_dictSet_ne _ _ _ _ h3] at hfd
      exact hpkg0.2 plug fd hfd
  · rw [dictLookup_dictSet_ne _ _ _ _ h2] at hd
    exact hrest pkg d hd

theorem WFRegistry_applyEvents {π : Type} {P : Registry π} (evs : List (RegEvent π))
    (hWF : WFRegistry P) : WFRegistry (applyEvents P evs) := by
  induction evs generalizing P with
  | nil => exact hWF
  | cons e rest ih => exact ih (WFRegistry_applyEvent e hWF)

theorem WFRegistry_import {π : Type} (L : Loader π) (s : St π) (pkg plug : String)
    (hWF : WFRegistry s.plugins) : WFRegistry (_import L s pkg plug).2.plugins := by
  rcases _import_plugins_cases L s pkg plug with h | h <;> rw [h]
  · exact hWF
  · exact WFRegistry_applyEvents _ hWF

theorem dictKeys_append_one {β : Type} (d : List (String × β)) (k : String) (v : β) :
    dictKeys (d ++ [(k, v)]) = dictKeys d ++ [k] := by
  simp [dictKeys]

theorem dictLookup_append_one {β : Type} (d : List (String × β)) (k k2 : String) (v : β) :
    dictLookup (d ++ [(k, v)]) k2
      = match dictLookup d k2 with
        | some w => some w
        | none => if k = k2 then some v else none := by
  induction d with
  | nil => simp [dictLookup]
  | cons kv rest ih =>
    obtain ⟨k1, v1⟩ := kv
    by_cases h : k1 = k2
    · simp [dictLookup, h]
    · simp [dictLookup, h, ih]

theorem WFRegistry_setdefaultPkg {π : Type} {P : Registry π} (pkg : String)
    (hWF : WFRegistry P) : WFRegistry (setdefaultPkg P pkg) := by
  obtain ⟨hnd, hrest⟩ := hWF
  unfold setdefaultPkg
  cases h : dictContains P pkg with
  | true => exact ⟨hnd, hrest⟩
  | false =>
    simp only [Bool.false_eq_true, if_false]
    constructor
    · rw [dictKeys_append_one]
      simp only [List.nodup_append, List.nodup_singleton, true_and]
      refine ⟨hnd, ?_⟩
      intro a ha hb
      simp only [List.mem_singleton] at hb
      subst hb
      rw [mem_dictKeys_iff] at ha
      simp [dictContains, ha] at h
    · intro p d hd
      rw [dictLookup_append_one] at hd
      cases h2 : dictLookup P p with
      | some d0 =>
        rw [h2] at hd
        simp only [Option.some.injEq] at hd
        subst hd
        exact hrest p d0 h2
      | none =>
        rw [h2] at hd
        by_cases h3 : pkg = p
        · rw [if_pos h3] at hd
          injection hd with hd
          subst hd
          exact ⟨List.nodup_nil, by intro plug fd h4; simp [dictLookup] at h4⟩
        · simp [h3] at hd

theorem WFRegistry_importLoop {π : Type} (L : Loader π) (s : St π) (pkg : String)
    (ps : List String) (hWF : WFRegistry s.plugins) :
    WFRegistry (importLoop L s pkg ps).2.plugins := by
  induction ps generalizing s with
  | nil => exact hWF
  | cons p rest ih =>
    unfold importLoop
    rcases h : _import L s pkg p with ⟨res, s1⟩
    have hWF1 : WFRegistry s1.plugins := by
      have h2 := WFRegistry_import L s pkg p hWF
      rw [h] at h2
      exact h2
    rcases res with e | v
    · rcases e with m | m | m | exc
      · simpa using hWF1
      · simpa using hWF1
      · simpa using hWF1
      · rcases exc with m | d
        · simpa using ih s1 hWF1
        · simpa using hWF1
    · simpa using ih s1 hWF1

theorem WFRegistry_import_all {π : Type} (L : Loader π) (s : St π) (pkg : String)
    (hWF : WFRegistry s.plugins) : WFRegistry (_import_all L s pkg).2.plugins := by
  unfold _import_all
  cases h : L.contents pkg with
  | error e =>
    cases e with
    | importError m => simpa using hWF
    | other d => simpa using hWF
  | ok rs =>
    simp only []
    exact WFRegistry_importLoop L _ pkg _ (WFRegistry_setdefaultPkg pkg hWF)

/-- C7: `exists` returns `True` immediately (no import) when the pair is
cached; otherwise it converts exactly the two not-found error kinds of
the import into `False`, lets any other failure propagate, and on a
successful import returns whether the plug-in is now cached — `True` only
only when at least one function is registered under the plug-in, and a
real importable member registering nothing yields `False`. -/
theorem claim_C7_exists_semantics {π : Type} (L : Loader π) (s : St π)
    (pkg plug : String) :
    (cached s.plugins pkg plug = true → exists' L s pkg plug = (Except.ok true, s)) ∧
    (∀ msg s1, _import L s pkg plug = (Except.error (Failure.unknownPlugin msg), s1) →
      exists' L s pkg plug = (Except.ok false, s1)) ∧
    (∀ msg s1, _import L s pkg plug = (Except.error (Failure.unknownPackage msg), s1) →
      exists' L s pkg plug = (Except.ok false, s1)) ∧
    (∀ e s1, _import L s pkg plug = (Except.error (Failure.py e), s1) →
      exists' L s pkg plug = (Except.error (Failure.py e), s1)) ∧
    (∀ s1, cached s.plugins pkg plug = false →
      _import L s pkg plug = (Except.ok (), s1) →
      exists' L s pkg plug = (Except.ok (cached s1.plugins pkg plug), s1) ∧
      (WFRegistry s.plugins → cached s1.plugins pkg plug = true →
        ∃ pi fn r,
          (dictLookup s1.plugins pkg).bind (fun d => dictLookup d plug) = some pi
            ∧ dictLookup pi fn = some r)) := by
  refine ⟨?_, ?_, ?_, ?_, ?_⟩
  · intro hc
    simp [exists', hc]
  · intro msg s1 h
    cases hc : cached s.plugins pkg plug with
    | true => rw [_import_cached L s pkg plug hc] at h; simp at h
    | false => simp only [exists', hc, Bool.false_eq_true, if_false, h]
  · intro msg s1 h
    cases hc : cached s.plugins pkg plug with
    | true => rw [_import_cached L s pkg plug hc] at h; simp at h
    | false => simp only [exists', hc, Bool.false_eq_true, if_false, h]
  · intro e s1 h
    cases hc : cached s.plugins pkg plug with
    | true => rw [_import_cached L s pkg plug hc] at h; simp at h
    | false => simp only [exists', hc, Bool.false_eq_true, if_false, h]
  · intro s1 hc h
    constructor
    · simp only [exists', hc, Bool.false_eq_true, if_false, h]
    · intro hWF hcached
      have hWF1 : WFRegistry s1.plugins := by
        have h2 := WFRegistry_import L s pkg plug hWF
        rw [h] at h2
        exact h2
      rw [cached_true_iff] at hcached
      cases hd : dictLookup s1.plugins pkg with
      | none => rw [hd] at hcached; simp at hcached
      | some d =>
        rw [hd] at hcached
        simp only [Option.some_bind] at hcached
        cases hpi : dictLookup d plug with
        | none => rw [hpi] at hcached; simp at hcached
        | some pi =>
          have hne : pi ≠ [] := ((hWF1.2 pkg d hd).2 plug pi hpi).2
          cases pi with
          | nil => exact absurd rfl hne
          | cons kv rest =>
            refine ⟨kv :: rest, kv.1, kv.2, by simp [hd, hpi], ?_⟩
            rcases kv with ⟨a, b⟩
            simp [dictLookup]

/-! ### Pure views of the lookup path (proof support)

When the queried plug-in is already in the store, `_import` is a no-op, so
`funcs` and `info` return values that depend only on the stored function
dictionary.  The following definitions name those values so that lemmas can
talk about them. -/

/-- Value of `funcs` read from a stored function dictionary. -/
def funcsPure {π : Type} (pi : FuncDict π) (lab : Option String) : List String :=
  (pi.filter (fun kv => kv.2.label = lab)).map Prod.fst

/-- The function name `info` resolves: the given one, or the first of the
requested label partition, or the sentinel `""`. -/
def resolveName {π : Type} (pi : FuncDict π) (fo : Option String)
    (lab : Option String) : String :=
  match fo with
  | some f => f
  | none => (funcsPure pi lab).headD ""

/-- The tail of `info` (lines 160-174): look the resolved name up and check
the record's label. -/
def infoResolve {π : Type} (pi : FuncDict π) (pkg plug fname : String)
    (lab : Option String) : Except Failure (PluginInfo π) :=
  match dictLookup pi fname with
  | none =>
    Except.error (Failure.unknownPluginFunction
      ("Could not find any function named " ++ pyRepr fname ++ " inside "
        ++ pyRepr (pkg ++ "." ++ plug)
        ++ ". Use @pyplugs.register to register plug-in functions"))
  | some func_info =>
    if func_info.label = lab then Except.ok func_info
    else
      Except.error (Failure.unknownPluginFunction
        ("Could not find " ++ pyRepr (pkg ++ "." ++ plug ++ "." ++ fname)
          ++ " with label " ++ pyRepr (labelStr lab)
          ++ ". Use @pyplugs.register to register plug-in functions"))

theorem funcs_cached {π : Type} (L : Loader π) (s : St π) (pkg plug : String)
    (lab : Option String) (pi : FuncDict π)
    (hb : (dictLookup s.plugins pkg).bind (fun d => dictLookup d plug) = some pi) :
    funcs L s pkg plug lab = (Except.ok (funcsPure pi lab), s) := by
  have hc : cached s.plugins pkg plug = true := by
    rw [cached_true_iff, hb]; rfl
  simp only [funcs, _import_cached L s pkg plug hc, hb, funcsPure]

theorem labels_cached {π : Type} (L : Loader π) (s : St π) (pkg plug : String)
    (pi : FuncDict π)
    (hb : (dictLookup s.plugins pkg).bind (fun d => dictLookup d plug) = some pi) :
    labels L s pkg plug = (Except.ok (pi.filterMap (fun kv => kv.2.label)).toFinset, s) := by
  have hc : cached s.plugins pkg plug = true := by
    rw [cached_true_iff, hb]; rfl
  simp only [labels, _import_cached L s pkg plug hc, hb]

theorem info_cached {π : Type} (L : Loader π) (s : St π) (pkg plug : String)
    (fo lab : Option String) (pi : FuncDict π)
    (hb : (dictLookup s.plugins pkg).bind (fun d => dictLookup d plug) = some pi) :
    info L s pkg plug fo lab = (infoResolve pi pkg plug (resolveName pi fo lab) lab, s) := by
  have hc : cached s.plugins pkg plug = true := by
    rw [cached_true_iff, hb]; rfl
  cases fo with
  | some f =>
    simp only [info, _import_cached L s pkg plug hc, hb, infoResolve, resolveName]
    cases dictLookup pi f with
    | none => rfl
    | some r => by_cases h : r.label = lab <;> simp [h]
  | none =>
    simp only [info, _import_cached L s pkg plug hc, hb,
      funcs_cached L s pkg plug lab pi hb, infoResolve, resolveName]
    cases dictLookup pi ((funcsPure pi lab).headD "") with
    | none => rfl
    | some r => by_cases h : r.label = lab <;> simp [h]

theorem infoResolve_lookup_none {π : Type} (pi : FuncDict π) (pkg plug fname : String)
    (lab : Option String) (h : dictLookup pi fname = none) :
    infoResolve pi pkg plug fname lab
      = Except.error (Failure.unknownPluginFunction
          ("Could not find any function named " ++ pyRepr fname ++ " inside "
            ++ pyRepr (pkg ++ "." ++ plug)
            ++ ". Use @pyplugs.register to register plug-in functions")) := by
  unfold infoResolve
  rw [h]

theorem infoResolve_label_mismatch {π : Type} (pi : FuncDict π) (pkg plug fname : String)
    (lab : Option String) (r : PluginInfo π)
    (h : dictLookup pi fname = some r) (hr : r.label ≠ lab) :
    infoResolve pi pkg plug fname lab
      = Except.error (Failure.unknownPluginFunction
          ("Could not find " ++ pyRepr (pkg ++ "." ++ plug ++ "." ++ fname)
            ++ " with label " ++ pyRepr (labelStr lab)
            ++ ". Use @pyplugs.register to register plug-in functions")) := by
  unfold infoResolve
  rw [h]
  exact if_neg hr

theorem info_ok_eq {π : Type} (L : Loader π) (s s1 : St π) (pkg plug : String)
    (fo lab : Option String) (pi : FuncDict π)
    (himp : _import L s pkg plug = (Except.ok (), s1))
    (hb : (dictLookup s1.plugins pkg).bind (fun d => dictLookup d plug) = some pi) :
    info L s pkg plug fo lab = (infoResolve pi pkg plug (resolveName pi fo lab) lab, s1) := by
  cases fo with
  | some f =>
    simp only [info, himp, hb, infoResolve, resolveName]
    cases dictLookup pi f with
    | none => rfl
    | some r => by_cases h : r.label = lab <;> simp [h]
  | none =>
    simp only [info, himp, hb, funcs_cached L s1 pkg plug lab pi hb,
      infoResolve, resolveName]
    cases dictLookup pi ((funcsPure pi lab).headD "") with
    | none => rfl
    | some r => by_cases h : r.label = lab <;> simp [h]

/-- C2: default-function resolution.  When the requested label partition is
non-empty, `info` without a function name equals `info` with the partition's
first (registration-order) name; when the partition is empty the omitted
name resolves to the sentinel `""` and the lookup fails with
`UnknownPluginFunctionError`. -/
theorem claim_C2_default_function_resolution {π : Type} (L : Loader π) (s : St π)
    (pkg plug : String) (lab : Option String) :
    (∀ f0 rest, (funcs L s pkg plug lab).1 = Except.ok (f0 :: rest) →
      info L s pkg plug none lab = info L s pkg plug (some f0) lab) ∧
    ((funcs L s pkg plug lab).1 = Except.ok [] →
      ∃ msg, (info L s pkg plug none lab).1
        = Except.error (Failure.unknownPluginFunction msg)) := by
  rcases himp : _import L s pkg plug with ⟨res, s1⟩
  rcases res with e | u
  · constructor
    · intro f0 rest h
      simp only [funcs, himp] at h
      exact Except.noConfusion h
    · intro h
      simp only [funcs, himp] at h
      exact Except.noConfusion h
  · cases hb : (dictLookup s1.plugins pkg).bind (fun d => dictLookup d plug) with
    | none =>
      constructor
      · intro f0 rest h
        simp only [funcs, himp, hb] at h
        exact Except.noConfusion h
      · intro h
        simp only [funcs, himp, hb] at h
        exact Except.noConfusion h
    | some pi =>
      constructor
      · intro f0 rest h
        simp only [funcs, himp, hb] at h
        injection h with h
        have hl : funcsPure pi lab = f0 :: rest := h
        rw [info_ok_eq L s s1 pkg plug none lab pi himp hb,
          info_ok_eq L s s1 pkg plug (some f0) lab pi himp hb]
        simp [resolveName, hl]
      · intro h
        simp only [funcs, himp, hb] at h
        injection h with h
        have hl : funcsPure pi lab = [] := h
        rw [info_ok_eq L s s1 pkg plug none lab pi himp hb]
        simp only [resolveName, hl, List.headD_nil]
        cases hg : dictLookup pi "" with
        | none =>
          exact ⟨_, infoResolve_lookup_none pi pkg plug "" lab hg⟩
        | some r =>
          have hr : r.label ≠ lab := by
            intro heq
            have hmem : ("", r) ∈ pi.filter (fun kv => kv.2.label = lab) := by
              rw [List.mem_filter]
              exact ⟨dictLookup_mem hg, by simp [heq]⟩
            have h5 : ("", r).1 ∈ funcsPure pi lab := List.mem_map_of_mem Prod.fst hmem
            rw [hl] at h5
            simp at h5
          exact ⟨_, infoResolve_label_mismatch pi pkg plug "" lab r hg hr⟩

/-- C6: the label double-check in `info`.  With an explicit function name,
`info` fails with `UnknownPluginFunctionError` both when the name is not a
key of the plug-in's records and when the found record's label differs from
the requested one — in particular when the function exists but carries no
label or a different label. -/
theorem claim_C6_info_label_double_check {π : Type} (L : Loader π) (s : St π)
    (pkg plug g : String) (lab : Option String) (s1 : St π) (pi : FuncDict π)
    (h1 : _import L s pkg plug = (Except.ok (), s1))
    (h2 : (dictLookup s1.plugins pkg).bind (fun d => dictLookup d plug) = some pi)
    (h3 : ∀ r, dictLookup pi g = some r → r.label ≠ lab) :
    ∃ msg, (info L s pkg plug (some g) lab).1
      = Except.error (Failure.unknownPluginFunction msg) := by
  rw [info_ok_eq L s s1 pkg plug (some g) lab pi h1 h2]
  cases hg : dictLookup pi g with
  | none =>
    exact ⟨_, infoResolve_lookup_none pi pkg plug g lab hg⟩
  | some r =>
    exact ⟨_, infoResolve_label_mismatch pi pkg plug g lab r hg (h3 r hg)⟩

/-- C5: label partitioning.  `funcs` returns, in registration order, exactly
the function names whose record's label equals the requested label (`none`
matching only `none`), and `labels` returns exactly the set of non-`none`
labels among the plug-in's records. -/
theorem claim_C5_label_partitioning {π : Type} (L : Loader π) (s : St π)
    (pkg plug : String) (lab : Option String) (l : List String)
    (lset : Finset String) (s1 s2 : St π)
    (hWF : WFRegistry s.plugins)
    (hf : funcs L s pkg plug lab = (Except.ok l, s1))
    (hlb : labels L s pkg plug = (Except.ok lset, s2)) :
    ∃ pi, (dictLookup s1.plugins pkg).bind (fun d => dictLookup d plug) = some pi ∧
      List.Sublist l (dictKeys pi) ∧
      (∀ f r, dictLookup pi f = some r → (f ∈ l ↔ r.label = lab)) ∧
      (∀ x, x ∈ lset ↔ ∃ fr ∈ pi, fr.2.label = some x) := by
  rcases himp : _import L s pkg plug with ⟨res, s1x⟩
  rcases res with e | u
  · simp only [funcs, himp, Prod.mk.injEq] at hf
    exact Except.noConfusion hf.1
  · cases hb : (dictLookup s1x.plugins pkg).bind (fun d => dictLookup d plug) with
    | none =>
      simp only [funcs, himp, hb, Prod.mk.injEq] at hf
      exact Except.noConfusion hf.1
    | some pi =>
      simp only [funcs, himp, hb, Prod.mk.injEq] at hf
      simp only [labels, himp, hb, Prod.mk.injEq] at hlb
      obtain ⟨hfl, hfs⟩ := hf
      injection hfl with hfl
      obtain ⟨hll, hls⟩ := hlb
      injection hll with hll
      subst hfs
      have hWF1 : WFRegistry s1x.plugins := by
        have h2 := WFRegistry_import L s pkg plug hWF
        rw [himp] at h2
        exact h2
      have hnd : (dictKeys pi).Nodup := by
        cases hd : dictLookup s1x.plugins pkg with
        | none => rw [hd] at hb; exact absurd hb (by simp)
        | some d =>
          rw [hd] at hb
          simp only [Option.some_bind] at hb
          exact ((hWF1.2 pkg d hd).2 plug pi hb).1
      refine ⟨pi, hb, ?_, ?_, ?_⟩
      · rw [← hfl]
        exact List.Sublist.map Prod.fst (List.filter_sublist pi)
      · intro f r hfr
        rw [← hfl]
        constructor
        · intro hmem
          rw [List.mem_map] at hmem
          obtain ⟨kv, hkv, hkvf⟩ := hmem
          rw [List.mem_filter] at hkv
          have h5 : dictLookup pi kv.1 = some kv.2 :=
            dictLookup_of_mem_nodup hnd hkv.1
          rw [hkvf] at h5
          rw [hfr] at h5
          injection h5 with h5
          rw [h5]
          rw [decide_eq_true_eq] at hkv
          exact hkv.2
        · intro hlab
          have h4 : (f, r) ∈ pi := dictLookup_mem hfr
          have h6 : (f, r) ∈ pi.filter (fun kv => kv.2.label = lab) := by
            rw [List.mem_filter]
            exact ⟨h4, by simp [hlab]⟩
          exact List.mem_map_of_mem Prod.fst h6
      · intro x
        rw [← hll]
        simp [List.mem_toFinset, List.mem_filterMap]

/-! ### C4: fault tolerance of `_import_all` -/

theorem importLoop_no_importError {π : Type} (L : Loader π) (pkg msg : String) :
    ∀ (ps : List String) (s : St π),
      (importLoop L s pkg ps).1 ≠ Except.error (Failure.py (PyExc.importError msg)) := by
  intro ps
  induction ps with
  | nil => intro s h; exact Except.noConfusion h
  | cons p rest ih =>
    intro s
    unfold importLoop
    rcases h : _import L s pkg p with ⟨res, s1⟩
    rcases res with e | u
    · rcases e with m | m | m | exc
      · intro hc; exact Failure.noConfusion (Except.error.inj hc)
      · intro hc; exact Failure.noConfusion (Except.error.inj hc)
      · intro hc; exact Failure.noConfusion (Except.error.inj hc)
      · rcases exc with m2 | d
        · exact ih s1
        · intro hc
          exact PyExc.noConfusion (Failure.py.inj (Except.error.inj hc))
    · exact ih s1

/-- C4 (amended): an `ImportError` raised by an individual member's load is
caught and discarded by `_import_all`'s per-member loop — the loop simply
continues with the remaining members — and `_import_all` never fails with an
`ImportError` on account of a member.  (Failures that are not instances of
`ImportError` are not caught; see the counterexample.) -/
theorem claim_C4_import_all_tolerates_import_errors {π : Type} (L : Loader π)
    (s s1 : St π) (pkg p : String) (rest : List String) (m : String)
    (h : _import L s pkg p = (Except.error (Failure.py (PyExc.importError m)), s1)) :
    importLoop L s pkg (p :: rest) = importLoop L s1 pkg rest ∧
    (∀ r s2, _import_all L s pkg = (r, s2) →
      ∀ msg, r ≠ Except.error (Failure.py (PyExc.importError msg))) := by
  constructor
  · conv_lhs => unfold importLoop
    rw [h]
  · intro r s2 hia msg
    unfold _import_all at hia
    cases hc : L.contents pkg with
    | error e =>
      cases e with
      | importError m2 =>
        rw [hc] at hia
        simp only [Prod.mk.injEq] at hia
        rw [← hia.1]
        intro hcon
        exact Failure.noConfusion (Except.error.inj hcon)
      | other d =>
        rw [hc] at hia
        simp only [Prod.mk.injEq] at hia
        rw [← hia.1]
        intro hcon
        exact PyExc.noConfusion (Failure.py.inj (Except.error.inj hcon))
    | ok rs =>
      rw [hc] at hia
      simp only [] at hia
      have h3 : _ = r := congrArg Prod.fst hia
      rw [← h3]
      exact importLoop_no_importError L pkg msg _ _

/-! ### C3: ordering of `names` -/

/-- Proof support: the sort key `names` computes for one plug-in name, read
purely from the stored package dictionary (0 in unreachable branches). -/
def sortKeyVal {π : Type} (pkgd : PkgDict π) (pkg p : String) : Int :=
  match dictLookup pkgd p with
  | none => 0
  | some pi =>
    match infoResolve pi pkg p (resolveName pi none none) none with
    | Except.ok r => r.sort_value
    | Except.error _ => 0

/-- Proof support: the pure value of the decoration loop of `names` when
every listed plug-in is in the store. -/
def keyLoopPure {π : Type} (pkgd : PkgDict π) (pkg : String) :
    List String → Except Failure (List (String × Int))
  | [] => Except.ok []
  | p :: rest =>
    match dictLookup pkgd p with
    | none => Except.ok []
    | some pi =>
      match infoResolve pi pkg p (resolveName pi none none) none with
      | Except.error e => Except.error e
      | Except.ok r =>
        match keyLoopPure pkgd pkg rest with
        | Except.error e => Except.error e
        | Except.ok pairs => Except.ok ((p, r.sort_value) :: pairs)

theorem keyLoop_cached {π : Type} (L : Loader π) (s : St π) (pkg : String)
    (pkgd : PkgDict π) (hpkg : dictLookup s.plugins pkg = some pkgd) :
    ∀ ks : List String, (∀ p ∈ ks, (dictLookup pkgd p).isSome) →
      keyLoop L s pkg ks = (keyLoopPure pkgd pkg ks, s) := by
  intro ks
  induction ks with
  | nil => intro h; rfl
  | cons p rest ih =>
    intro h
    have hp : (dictLookup pkgd p).isSome := h p (List.mem_cons_self p rest)
    cases hpi : dictLookup pkgd p with
    | none => rw [hpi] at hp; exact absurd hp (by simp)
    | some pi =>
      have hb : (dictLookup s.plugins pkg).bind (fun d => dictLookup d p) = some pi := by
        rw [hpkg]
        simpa using hpi
      have hrest := ih (fun q hq => h q (List.mem_cons_of_mem p hq))
      simp only [keyLoop, keyLoopPure, hpi, info_cached L s pkg p none none pi hb]
      cases hres : infoResolve pi pkg p (resolveName pi none none) none with
      | error e => rfl
      | ok r =>
        rw [hrest]
        cases hkp : keyLoopPure pkgd pkg rest with
        | error e => rfl
        | ok pairs => rfl

theorem keyLoopPure_ok {π : Type} (pkgd : PkgDict π) (pkg : String) :
    ∀ ks pairs, keyLoopPure pkgd pkg ks = Except.ok pairs →
      (∀ p ∈ ks, (dictLookup pkgd p).isSome) →
      pairs = ks.map (fun p => (p, sortKeyVal pkgd pkg p)) ∧
      ∀ p ∈ ks, ∃ pi r, dictLookup pkgd p = some pi ∧
        infoResolve pi pkg p (resolveName pi none none) none = Except.ok r ∧
        sortKeyVal pkgd pkg p = r.sort_value := by
  intro ks
  induction ks with
  | nil =>
    intro pairs hk h
    injection hk with hk
    exact ⟨hk.symm, by simp⟩
  | cons p rest ih =>
    intro pairs hk h
    have hp : (dictLookup pkgd p).isSome := h p (List.mem_cons_self p rest)
    cases hpi : dictLookup pkgd p with
    | none => rw [hpi] at hp; exact absurd hp (by simp)
    | some pi =>
      simp only [keyLoopPure, hpi] at hk
      cases hres : infoResolve pi pkg p (resolveName pi none none) none with
      | error e => rw [hres] at hk; exact Except.noConfusion hk
      | ok r =>
        rw [hres] at hk
        cases hkp : keyLoopPure pkgd pkg rest with
        | error e => rw [hkp] at hk; exact Except.noConfusion hk
        | ok pairs0 =>
          rw [hkp] at hk
          injection hk with hk
          obtain ⟨ih1, ih2⟩ := ih pairs0 hkp (fun q hq => h q (List.mem_cons_of_mem p hq))
          have hsv : sortKeyVal pkgd pkg p = r.sort_value := by
            simp only [sortKeyVal, hpi, hres]
          constructor
          · rw [← hk, ih1]
            simp [hsv]
          · intro q hq
            rcases List.mem_cons.mp hq with hq1 | hq1
            · subst hq1
              exact ⟨pi, r, hpi, hres, hsv⟩
            · exact ih2 q hq1

theorem names_ok_spec {π : Type} (L : Loader π) (s : St π) (pkg : String)
    (l : List String) (s1 : St π)
    (h : names L s pkg = (Except.ok l, s1)) :
    ∃ pkgd pairs,
      dictLookup s1.plugins pkg = some pkgd ∧
      _import_all L s pkg = (Except.ok (), s1) ∧
      keyLoopPure pkgd pkg (dictKeys pkgd) = Except.ok pairs ∧
      l = ((pairs.insertionSort bySortValue).map Prod.fst : List String) := by
  rcases hia : _import_all L s pkg with ⟨res, sA⟩
  rcases res with e | u
  · simp only [names, hia, Prod.mk.injEq] at h
    exact Except.noConfusion h.1
  · cases u
    cases hpd : dictLookup sA.plugins pkg with
    | none =>
      simp only [names, hia, hpd, Prod.mk.injEq] at h
      exact Except.noConfusion h.1
    | some pkgd =>
      have hks : ∀ p ∈ dictKeys pkgd, (dictLookup pkgd p).isSome :=
        fun p hp => (mem_dictKeys_iff pkgd p).mp hp
      have hkl := keyLoop_cached L sA pkg pkgd hpd (dictKeys pkgd) hks
      simp only [names, hia, hpd, hkl] at h
      cases hkp : keyLoopPure pkgd pkg (dictKeys pkgd) with
      | error e =>
        rw [hkp] at h
        simp only [Prod.mk.injEq] at h
        exact Except.noConfusion h.1
      | ok pairs =>
        rw [hkp] at h
        simp only [Prod.mk.injEq] at h
        obtain ⟨h1, h2⟩ := h
        injection h1 with h1
        subst h2
        refine ⟨pkgd, pairs, hpd, rfl, hkp, h1.symm⟩

theorem orderedInsert_filter (x : String × Int) (l : List (String × Int)) (c : Int) :
    (l.orderedInsert bySortValue x).filter (fun y => y.2 = c)
      = if x.2 = c then x :: l.filter (fun y => y.2 = c)
        else l.filter (fun y => y.2 = c) := by
  induction l with
  | nil => by_cases h : x.2 = c <;> simp [List.orderedInsert, h]
  | cons y ys ih =>
    by_cases hxy : bySortValue x y
    · by_cases h : x.2 = c <;> simp [List.orderedInsert, hxy, h]
    · have hgt : ¬ x.2 ≤ y.2 := hxy
      by_cases hy : y.2 = c
      · have hx : ¬ x.2 = c := by
          intro h2
          exact hgt (by rw [h2, hy])
        simp [List.orderedInsert, hxy, hy, hx, ih]
      · by_cases hx : x.2 = c <;> simp [List.orderedInsert, hxy, hy, hx, ih]

theorem insertionSort_filter (l : List (String × Int)) (c : Int) :
    (l.insertionSort bySortValue).filter (fun y => y.2 = c)
      = l.filter (fun y => y.2 = c) := by
  induction l with
  | nil => rfl
  | cons x xs ih =>
    rw [List.insertionSort, orderedInsert_filter]
    by_cases h : x.2 = c <;> simp [h, ih]

/-- C3: ordering of `names`.  A successful `names` call returns a
permutation of the package's plug-in keys, pairwise sorted ascending by each
plug-in's default `sort_value`, and restricted to any single sort-value
class it coincides with the store's insertion (registration) order — the
characterization of a stable ascending sort. -/
theorem claim_C3_names_stable_sort {π : Type} (L : Loader π) (s : St π)
    (pkg : String) (l : List String) (s1 : St π)
    (h : names L s pkg = (Except.ok l, s1)) :
    ∃ (ks : List String) (v : String → Int),
      (∃ pkgd, dictLookup s1.plugins pkg = some pkgd ∧ ks = dictKeys pkgd) ∧
      (∀ p ∈ ks, ∃ r, info L s1 pkg p none none = (Except.ok r, s1)
        ∧ v p = r.sort_value) ∧
      l.Perm ks ∧
      l.Pairwise (fun a b => v a ≤ v b) ∧
      (∀ c : Int, l.filter (fun p => v p = c) = ks.filter (fun p => v p = c)) := by
  obtain ⟨pkgd, pairs, hpd, hia, hkp, hl⟩ := names_ok_spec L s pkg l s1 h
  have hks : ∀ p ∈ dictKeys pkgd, (dictLookup pkgd p).isSome :=
    fun p hp => (mem_dictKeys_iff pkgd p).mp hp
  obtain ⟨hpairs, hinfo⟩ := keyLoopPure_ok pkgd pkg (dictKeys pkgd) pairs hkp hks
  have h3 : pairs.map Prod.fst = dictKeys pkgd := by
    rw [hpairs, List.map_map]
    have h4 : (Prod.fst ∘ fun p : String => (p, sortKeyVal pkgd pkg p)) = id := rfl
    rw [h4, List.map_id]
  have hmemv : ∀ x ∈ pairs, x.2 = sortKeyVal pkgd pkg x.1 := by
    intro x hx
    rw [hpairs, List.mem_map] at hx
    obtain ⟨p, hp, hpx⟩ := hx
    rw [← hpx]
  have hmemv2 : ∀ x ∈ pairs.insertionSort bySortValue, x.2 = sortKeyVal pkgd pkg x.1 :=
    fun x hx => hmemv x ((List.perm_insertionSort bySortValue pairs).mem_iff.mp hx)
  refine ⟨dictKeys pkgd, sortKeyVal pkgd pkg, ⟨pkgd, hpd, rfl⟩, ?_, ?_, ?_, ?_⟩
  · intro p hp
    obtain ⟨pi, r, hpi, hres, hsv⟩ := hinfo p hp
    have hb : (dictLookup s1.plugins pkg).bind (fun d => dictLookup d p) = some pi := by
      rw [hpd]
      simpa using hpi
    exact ⟨r, by rw [info_cached L s1 pkg p none none pi hb, hres], hsv⟩
  · rw [hl]
    have h2 := (List.perm_insertionSort bySortValue pairs).map Prod.fst
    rw [h3] at h2
    exact h2
  · rw [hl, List.pairwise_map]
    have hsorted : List.Pairwise bySortValue (pairs.insertionSort bySortValue) :=
      List.sorted_insertionSort bySortValue pairs
    refine List.Pairwise.imp_of_mem ?_ hsorted
    intro a b ha hb hab
    have ha2 := hmemv2 a ha
    have hb2 := hmemv2 b hb
    rw [← ha2, ← hb2]
    exact hab
  · intro c
    rw [hl]
    have e1 : ((pairs.insertionSort bySortValue).map Prod.fst).filter
        (fun p => sortKeyVal pkgd pkg p = c)
        = ((pairs.insertionSort bySortValue).filter
            (fun y => sortKeyVal pkgd pkg y.1 = c)).map Prod.fst :=
      List.filter_map Prod.fst (pairs.insertionSort bySortValue)
    have e2 : (pairs.insertionSort bySortValue).filter
        (fun y => sortKeyVal pkgd pkg y.1 = c)
        = (pairs.insertionSort bySortValue).filter (fun y => y.2 = c) := by
      apply List.filter_congr
      intro x hx
      rw [hmemv2 x hx]
    have e3 : pairs.filter (fun y => y.2 = c)
        = pairs.filter ((fun p => sortKeyVal pkgd pkg p = c) ∘ Prod.fst) := by
      apply List.filter_congr
      intro x hx
      simp only [Function.comp_apply]
      rw [hmemv x hx]
    have e4 : (pairs.filter ((fun p => sortKeyVal pkgd pkg p = c) ∘ Prod.fst)).map Prod.fst
        = (pairs.map Prod.fst).filter (fun p => sortKeyVal pkgd pkg p = c) :=
      (List.filter_map Prod.fst pairs).symm
    rw [e1, e2, insertionSort_filter, e3, e4, h3]

theorem infoResolve_found {π : Type} (pi : FuncDict π) (pkg plug fname : String)
    (lab : Option String) (r : PluginInfo π)
    (h : dictLookup pi fname = some r) (hr : r.label = lab) :
    infoResolve pi pkg plug fname lab = Except.ok r := by
  unfold infoResolve
  rw [h]
  exact if_pos hr

theorem keyLoopPure_error_upf {π : Type} (pkgd : PkgDict π) (pkg : String) :
    ∀ ks : List String, (∀ p ∈ ks, (dictLookup pkgd p).isSome) →
      (∀ p ∈ ks, ∀ pi, dictLookup pkgd p = some pi →
        (∃ r, infoResolve pi pkg p (resolveName pi none none) none = Except.ok r) ∨
        (∃ m, infoResolve pi pkg p (resolveName pi none none) none
          = Except.error (Failure.unknownPluginFunction m))) →
      (∃ p ∈ ks, ∃ pi, dictLookup pkgd p = some pi ∧
        ∃ m, infoResolve pi pkg p (resolveName pi none none) none
          = Except.error (Failure.unknownPluginFunction m)) →
      ∃ m, keyLoopPure pkgd pkg ks = Except.error (Failure.unknownPluginFunction m) := by
  intro ks
  induction ks with
  | nil =>
    intro _ _ hex
    obtain ⟨p, hp, _⟩ := hex
    simp at hp
  | cons p rest ih =>
    intro hs hall hex
    have hp := hs p (List.mem_cons_self p rest)
    cases hpi : dictLookup pkgd p with
    | none => rw [hpi] at hp; exact absurd hp (by simp)
    | some pi =>
      rcases hall p (List.mem_cons_self p rest) pi hpi with ⟨r, hr⟩ | ⟨m, hm⟩
      · have hex2 : ∃ q ∈ rest, ∃ pi2, dictLookup pkgd q = some pi2 ∧
            ∃ m2, infoResolve pi2 pkg q (resolveName pi2 none none) none
              = Except.error (Failure.unknownPluginFunction m2) := by
          obtain ⟨q, hq, pi2, hpi2, m2, hm2⟩ := hex
          rcases List.mem_cons.mp hq with h1 | h1
          · subst h1
            rw [hpi] at hpi2
            injection hpi2 with hpi2
            subst hpi2
            rw [hr] at hm2
            exact Except.noConfusion hm2
          · exact ⟨q, h1, pi2, hpi2, m2, hm2⟩
        obtain ⟨m, hm⟩ := ih (fun q hq => hs q (List.mem_cons_of_mem p hq))
          (fun q hq => hall q (List.mem_cons_of_mem p hq)) hex2
        simp only [keyLoopPure, hpi, hr, hm]
        exact ⟨m, rfl⟩
      · simp only [keyLoopPure, hpi, hm]
        exact ⟨m, rfl⟩

/-- C10 (implicit): a namespace containing a plug-in whose registered
functions all carry a non-`none` label makes `names` fail with
`UnknownPluginFunctionError`, because the sort key of each plug-in is
obtained by resolving its default function with `label=None` and that
partition is empty for such a plug-in. -/
theorem claim_C10_names_fails_on_all_labeled_plugin {π : Type} (L : Loader π)
    (s s1 : St π) (pkg plug : String) (pkgd : PkgDict π) (pi : FuncDict π)
    (hia : _import_all L s pkg = (Except.ok (), s1))
    (hpd : dictLookup s1.plugins pkg = some pkgd)
    (hplug : dictLookup pkgd plug = some pi)
    (hlabeled : ∀ fr ∈ pi, fr.2.label ≠ none) :
    ∃ msg, names L s pkg = (Except.error (Failure.unknownPluginFunction msg), s1) := by
  have hks : ∀ p ∈ dictKeys pkgd, (dictLookup pkgd p).isSome :=
    fun p hp => (mem_dictKeys_iff pkgd p).mp hp
  have hall : ∀ p ∈ dictKeys pkgd, ∀ pi2, dictLookup pkgd p = some pi2 →
      (∃ r, infoResolve pi2 pkg p (resolveName pi2 none none) none = Except.ok r) ∨
      (∃ m, infoResolve pi2 pkg p (resolveName pi2 none none) none
        = Except.error (Failure.unknownPluginFunction m)) := by
    intro p _ pi2 _
    cases hg : dictLookup pi2 (resolveName pi2 none none) with
    | none => exact Or.inr ⟨_, infoResolve_lookup_none pi2 pkg p _ none hg⟩
    | some r =>
      by_cases hr : r.label = none
      · exact Or.inl ⟨r, infoResolve_found pi2 pkg p _ none r hg hr⟩
      · exact Or.inr ⟨_, infoResolve_label_mismatch pi2 pkg p _ none r hg hr⟩
  have hmem : plug ∈ dictKeys pkgd := by
    rw [mem_dictKeys_iff, hplug]
    rfl
  have hempty : funcsPure pi none = [] := by
    unfold funcsPure
    rw [List.filter_eq_nil_iff.mpr ?_]
    · rfl
    · intro kv hkv
      simp only [decide_eq_true_eq]
      exact hlabeled kv hkv
  have hex : ∃ p ∈ dictKeys pkgd, ∃ pi2, dictLookup pkgd p = some pi2 ∧
      ∃ m, infoResolve pi2 pkg p (resolveName pi2 none none) none
        = Except.error (Failure.unknownPluginFunction m) := by
    refine ⟨plug, hmem, pi, hplug, ?_⟩
    have hname : resolveName pi none none = "" := by
      unfold resolveName
      rw [hempty]
      rfl
    rw [hname]
    cases hg : dictLookup pi "" with
    | none => exact ⟨_, infoResolve_lookup_none pi pkg plug "" none hg⟩
    | some r =>
      have hr : r.label ≠ none := hlabeled ("", r) (dictLookup_mem hg)
      exact ⟨_, infoResolve_label_mismatch pi pkg plug "" none r hg hr⟩
  obtain ⟨m, hm⟩ := keyLoopPure_error_upf pkgd pkg (dictKeys pkgd) hks hall hex
  have hkl := keyLoop_cached L s1 pkg pkgd hpd (dictKeys pkgd) hks
  refine ⟨m, ?_⟩
  simp only [names, hia, hpd, hkl, hm]

/-! ### C9: idempotence of `names` -/

theorem rpartitionDotList_none (ys : List Char) (h : '.' ∉ ys) :
    rpartitionDotList ys = none := by
  induction ys with
  | nil => rfl
  | cons c rest ih =>
    have hc : c ≠ '.' := fun hc => h (hc ▸ List.mem_cons_self c rest)
    have hr : '.' ∉ rest := fun hr => h (List.mem_cons_of_mem c hr)
    simp only [rpartitionDotList, ih hr]
    rw [if_neg hc]

theorem rpartitionDotList_append (xs ys : List Char) (h : '.' ∉ ys) :
    rpartitionDotList (xs ++ '.' :: ys) = some (xs, ys) := by
  induction xs with
  | nil =>
    simp only [List.nil_append, rpartitionDotList, rpartitionDotList_none ys h]
    simp
  | cons x xs ih =>
    simp only [List.cons_append, rpartitionDotList, List.append_eq, ih]

theorem rpartitionDot_append (pkg p : String) (hp : '.' ∉ p.toList) :
    rpartitionDot (pkg ++ "." ++ p) = (pkg, p) := by
  have hdata : (pkg ++ "." ++ p).toList = pkg.toList ++ '.' :: p.toList := by
    simp [String.toList, String.data_append]
  unfold rpartitionDot
  rw [hdata, rpartitionDotList_append pkg.toList p.toList hp]
  rfl

theorem applyEvents_creates {π : Type} (P : Registry π) (m pkg p : String)
    (evs : List (RegEvent π)) (hne : evs ≠ [])
    (hmod : ∀ e ∈ evs, e.func.module = m) (hrp : rpartitionDot m = (pkg, p)) :
    cached (applyEvents P evs) pkg p = true := by
  cases evs with
  | nil => exact absurd rfl hne
  | cons e rest =>
    have h1 := applyEvents_cached_of_head P e rest
    rw [hmod e (List.mem_cons_self e rest), hrp] at h1
    exact h1

theorem importLoop_cached_mono {π : Type} (L : Loader π) (pkg : String) :
    ∀ (ps : List String) (s : St π) (a b : String), cached s.plugins a b = true →
      cached (importLoop L s pkg ps).2.plugins a b = true := by
  intro ps
  induction ps with
  | nil => intro s a b h; exact h
  | cons p rest ih =>
    intro s a b h
    rcases himp : _import L s pkg p with ⟨res, s1⟩
    have h1 : cached s1.plugins a b = true := by
      have h2 := _import_cached_mono L s pkg p a b h
      rw [himp] at h2
      exact h2
    rcases res with e | u
    · rcases e with m | m | m | exc
      · simp only [importLoop, himp]; exact h1
      · simp only [importLoop, himp]; exact h1
      · simp only [importLoop, himp]; exact h1
      · rcases exc with m2 | d
        · simp only [importLoop, himp]; exact ih s1 a b h1
        · simp only [importLoop, himp]; exact h1
    · simp only [importLoop, himp]; exact ih s1 a b h1

theorem setdefaultPkg_noop {π : Type} (P : Registry π) (pkg : String)
    (h : dictContains P pkg = true) : setdefaultPkg P pkg = P := by
  unfold setdefaultPkg
  rw [h]
  rfl

theorem append_plug_inj (pkg q p : String) (h : pkg ++ "." ++ q = pkg ++ "." ++ p) :
    q = p := by
  have h2 := congrArg String.data h
  simp only [String.data_append, List.append_assoc, List.append_right_inj] at h2
  cases q
  cases p
  simp only [String.toList] at h2
  exact congrArg String.mk (by simpa using h2)

/-- Proof support: a member whose load registers nothing and either succeeds
or fails with an `ImportError` matching neither the module nor the package
name — re-importing such a member leaves the store unchanged and is
swallowed (or succeeds) again. -/
def benign {π : Type} (L : Loader π) (pkg p : String) : Prop :=
  (L.load (pkg ++ "." ++ p)).regs = [] ∧
  ((L.load (pkg ++ "." ++ p)).exc = none ∨
   ∃ msg, (L.load (pkg ++ "." ++ p)).exc = some (PyExc.importError msg) ∧
     strContains msg (pyRepr (pkg ++ "." ++ p)) = false ∧
     strContains msg (pyRepr pkg) = false)

theorem importLoop_ok_settled {π : Type} (L : Loader π) (pkg : String)
    (hWFL : ∀ m, ∀ e ∈ (L.load m).regs, e.func.module = m) :
    ∀ (ps : List String) (s w : St π), (∀ p ∈ ps, '.' ∉ p.toList) →
      importLoop L s pkg ps = (Except.ok (), w) →
      ∀ p ∈ ps, cached w.plugins pkg p = true ∨ benign L pkg p := by
  intro ps
  induction ps with
  | nil => intro s w _ _ p hp; simp at hp
  | cons p0 rest ih =>
    intro s w hdot hloop p hp
    have hd0 : '.' ∉ p0.toList := hdot p0 (List.mem_cons_self p0 rest)
    have hdrest : ∀ q ∈ rest, '.' ∉ q.toList :=
      fun q hq => hdot q (List.mem_cons_of_mem p0 hq)
    cases hc : cached s.plugins pkg p0 with
    | true =>
      have he := _import_cached L s pkg p0 hc
      simp only [importLoop, he] at hloop
      rcases List.mem_cons.mp hp with h1 | h1
      · subst h1
        left
        have h2 := importLoop_cached_mono L pkg rest s pkg p hc
        rw [hloop] at h2
        exact h2
      · exact ih s w hdrest hloop p h1
    | false =>
      cases hexc : (L.load (pkg ++ "." ++ p0)).exc with
      | none =>
        have he : _import L s pkg p0
            = (Except.ok (), ⟨applyEvents s.plugins (L.load (pkg ++ "." ++ p0)).regs,
                s.loaded ++ [pkg ++ "." ++ p0]⟩) := by
          simp only [_import, hc, Bool.false_eq_true, if_false, hexc]
        simp only [importLoop, he] at hloop
        rcases List.mem_cons.mp hp with h1 | h1
        · subst h1
          cases hreg : (L.load (pkg ++ "." ++ p)).regs with
          | nil => exact Or.inr ⟨hreg, Or.inl hexc⟩
          | cons e evs =>
            left
            have hcr : cached (applyEvents s.plugins
                (L.load (pkg ++ "." ++ p)).regs) pkg p = true :=
              applyEvents_creates s.plugins (pkg ++ "." ++ p) pkg p _
                (by rw [hreg]; simp) (hWFL (pkg ++ "." ++ p))
                (rpartitionDot_append pkg p hd0)
            have h2 := importLoop_cached_mono L pkg rest
              ⟨applyEvents s.plugins (L.load (pkg ++ "." ++ p)).regs,
                s.loaded ++ [pkg ++ "." ++ p]⟩ pkg p hcr
            rw [hloop] at h2
            exact h2
        · exact ih _ w hdrest hloop p h1
      | some exc =>
        cases exc with
        | importError msg =>
          cases hm1 : strContains msg (pyRepr (pkg ++ "." ++ p0)) with
          | true =>
            have he : _import L s pkg p0
                = (Except.error (Failure.unknownPlugin
                    ("Plugin " ++ pyRepr p0 ++ " not found in " ++ pyRepr pkg)),
                   ⟨applyEvents s.plugins (L.load (pkg ++ "." ++ p0)).regs,
                    s.loaded ++ [pkg ++ "." ++ p0]⟩) := by
              simp only [_import, hc, Bool.false_eq_true, if_false, hexc, hm1, if_true]
            simp only [importLoop, he, Prod.mk.injEq] at hloop
            exact Except.noConfusion hloop.1
          | false =>
            cases hm2 : strContains msg (pyRepr pkg) with
            | true =>
              have he : _import L s pkg p0
                  = (Except.error (Failure.unknownPackage
                      ("Package " ++ pyRepr pkg ++ " does not exist")),
                     ⟨applyEvents s.plugins (L.load (pkg ++ "." ++ p0)).regs,
                      s.loaded ++ [pkg ++ "." ++ p0]⟩) := by
                simp only [_import, hc, Bool.false_eq_true, if_false, hexc, hm1, hm2]
                simp
              simp only [importLoop, he, Prod.mk.injEq] at hloop
              exact Except.noConfusion hloop.1
            | false =>
              have he : _import L s pkg p0
                  = (Except.error (Failure.py (PyExc.importError msg)),
                     ⟨applyEvents s.plugins (L.load (pkg ++ "." ++ p0)).regs,
                      s.loaded ++ [pkg ++ "." ++ p0]⟩) := by
                simp only [_import, hc, Bool.false_eq_true, if_false, hexc, hm1, hm2]
              simp only [importLoop, he] at hloop
              rcases List.mem_cons.mp hp with h1 | h1
              · subst h1
                cases hreg : (L.load (pkg ++ "." ++ p)).regs with
                | nil => exact Or.inr ⟨hreg, Or.inr ⟨msg, hexc, hm1, hm2⟩⟩
                | cons e evs =>
                  left
                  have hcr : cached (applyEvents s.plugins
                      (L.load (pkg ++ "." ++ p)).regs) pkg p = true :=
                    applyEvents_creates s.plugins (pkg ++ "." ++ p) pkg p _
                      (by rw [hreg]; simp) (hWFL (pkg ++ "." ++ p))
                      (rpartitionDot_append pkg p hd0)
                  have h2 := importLoop_cached_mono L pkg rest
                    ⟨applyEvents s.plugins (L.load (pkg ++ "." ++ p)).regs,
                      s.loaded ++ [pkg ++ "." ++ p]⟩ pkg p hcr
                  rw [hloop] at h2
                  exact h2
              · exact ih _ w hdrest hloop p h1
        | other d =>
          have he : _import L s pkg p0
              = (Except.error (Failure.py (PyExc.other d)),
                 ⟨applyEvents s.plugins (L.load (pkg ++ "." ++ p0)).regs,
                  s.loaded ++ [pkg ++ "." ++ p0]⟩) := by
            simp only [_import, hc, Bool.false_eq_true, if_false, hexc]
          simp only [importLoop, he, Prod.mk.injEq] at hloop
          exact Except.noConfusion hloop.1

theorem importLoop_settled_noop {π : Type} (L : Loader π) (pkg : String) :
    ∀ (ps : List String) (P : Registry π) (log : List String),
      (∀ p ∈ ps, cached P pkg p = true ∨ benign L pkg p) →
      ∃ ms, importLoop L ⟨P, log⟩ pkg ps = (Except.ok (), ⟨P, log ++ ms⟩) ∧
        ∀ q, cached P pkg q = true → (pkg ++ "." ++ q) ∉ ms := by
  intro ps
  induction ps with
  | nil =>
    intro P log _
    exact ⟨[], by simp [importLoop], by simp⟩
  | cons p rest ih =>
    intro P log hset
    have hrest : ∀ q ∈ rest, cached P pkg q = true ∨ benign L pkg q :=
      fun q hq => hset q (List.mem_cons_of_mem p hq)
    cases hc : cached P pkg p with
    | true =>
      have he := _import_cached L ⟨P, log⟩ pkg p hc
      obtain ⟨ms, hms, hnot⟩ := ih P log hrest
      refine ⟨ms, ?_, hnot⟩
      simp only [importLoop, he]
      exact hms
    | false =>
      have hb : benign L pkg p := by
        rcases hset p (List.mem_cons_self p rest) with h1 | h1
        · rw [hc] at h1; exact absurd h1 (by simp)
        · exact h1
      obtain ⟨hreg, hexcs⟩ := hb
      obtain ⟨ms, hms, hnot⟩ := ih P (log ++ [pkg ++ "." ++ p]) hrest
      have hplugins : applyEvents P (L.load (pkg ++ "." ++ p)).regs = P := by
        rw [hreg]
        rfl
      refine ⟨(pkg ++ "." ++ p) :: ms, ?_, ?_⟩
      · rcases hexcs with hnone | ⟨msg, hexc, hm1, hm2⟩
        · have he : _import L ⟨P, log⟩ pkg p
              = (Except.ok (), ⟨P, log ++ [pkg ++ "." ++ p]⟩) := by
            simp only [_import, hc, Bool.false_eq_true, if_false, hnone, hplugins]
          simp only [importLoop, he]
          rw [hms]
          simp
        · have he : _import L ⟨P, log⟩ pkg p
              = (Except.error (Failure.py (PyExc.importError msg)),
                 ⟨P, log ++ [pkg ++ "." ++ p]⟩) := by
            simp only [_import, hc, Bool.false_eq_true, if_false, hexc, hm1, hm2, hplugins]
          simp only [importLoop, he]
          rw [hms]
          simp
      · intro q hq hmem
        rcases List.mem_cons.mp hmem with h1 | h1
        · have h2 := append_plug_inj pkg q p h1
          subst h2
          rw [hc] at hq
          exact absurd hq (by simp)
        · exact hnot q hq h1

/-- C9: idempotence of `names`.  Under a loader whose modules register
functions under their own module name (the behavior of Python's decorator,
which reads `func.__module__`) and whose member names are plain (dot-free)
module files, a second `names` call returns the identical list, leaves the
registry exactly as it was, and invokes the Loader only for members that are
not already known to the registry store — never for a cached plug-in. -/
theorem claim_C9_names_idempotent {π : Type} (L : Loader π) (s : St π)
    (pkg : String) (l : List String) (s1 : St π)
    (hWFL : ∀ m, ∀ e ∈ (L.load m).regs, e.func.module = m)
    (hdot : ∀ rs, L.contents pkg = Except.ok rs →
      ∀ p ∈ (rs.filter (fun r => _import_all.strEndsPy r
          && !(_import_all.strStartsUnderscore r))).map _import_all.stripPyExt,
        '.' ∉ p.toList)
    (h : names L s pkg = (Except.ok l, s1)) :
    ∃ ms, names L s1 pkg = (Except.ok l, ⟨s1.plugins, s1.loaded ++ ms⟩) ∧
      ∀ plug, cached s1.plugins pkg plug = true → (pkg ++ "." ++ plug) ∉ ms := by
  obtain ⟨pkgd, pairs, hpd, hia, hkp, hl⟩ := names_ok_spec L s pkg l s1 h
  cases hcont : L.contents pkg with
  | error e =>
    unfold _import_all at hia
    rw [hcont] at hia
    cases e with
    | importError m =>
      simp only [Prod.mk.injEq] at hia
      exact Except.noConfusion hia.1
    | other d =>
      simp only [Prod.mk.injEq] at hia
      exact Except.noConfusion hia.1
  | ok rs =>
    unfold _import_all at hia
    rw [hcont] at hia
    simp only [] at hia
    have hdots : ∀ p ∈ (rs.filter (fun r => _import_all.strEndsPy r
        && !(_import_all.strStartsUnderscore r))).map _import_all.stripPyExt,
        '.' ∉ p.toList := hdot rs hcont
    have hset := importLoop_ok_settled L pkg hWFL _ _ s1 hdots hia
    have hcontains : dictContains s1.plugins pkg = true := by
      simp [dictContains, hpd]
    have hsetP : ∀ p ∈ (rs.filter (fun r => _import_all.strEndsPy r
        && !(_import_all.strStartsUnderscore r))).map _import_all.stripPyExt,
        cached s1.plugins pkg p = true ∨ benign L pkg p := hset
    obtain ⟨ms, hms, hnot⟩ := importLoop_settled_noop L pkg _ s1.plugins s1.loaded hsetP
    have hia2 : _import_all L s1 pkg
        = (Except.ok (), ⟨s1.plugins, s1.loaded ++ ms⟩) := by
      unfold _import_all
      rw [hcont]
      simp only []
      rw [setdefaultPkg_noop s1.plugins pkg hcontains]
      exact hms
    have hks : ∀ p ∈ dictKeys pkgd, (dictLookup pkgd p).isSome :=
      fun p hp => (mem_dictKeys_iff pkgd p).mp hp
    have hkl2 := keyLoop_cached L ⟨s1.plugins, s1.loaded ++ ms⟩ pkg pkgd hpd
      (dictKeys pkgd) hks
    refine ⟨ms, ?_, hnot⟩
    simp only [names, hia2, hpd, hkl2, hkp]
    rw [hl]

/-! ### Concrete example loaders (witness instances)

These mirror tests/plugin_directory with short names: package `pk` has a
plug-in sorted first (`f`, sort_value -10), one sorted last (`l`, 10), a
plug-in of several parts (`m`), a labeled plug-in (`lb`), a member that
registers nothing (`n`), a member raising an `ImportError` (`e`), a private
module and a non-Python file; package `qk` has a single plug-in whose only
function is labeled. -/

/-- A registration event of the example loader (the loaded module registers
under its own module name, as Python's decorator does). -/
def wEv (m n : String) (sv : Int) (lab : Option String) : RegEvent Nat :=
  { func := { module := m, name := n, doc := some "d", call := 0 }
    module_doc := some "md"
    sort_value := sv
    label := lab }

/-- Registrations performed by each module of the example loader. -/
def wRegs (m : String) : List (RegEvent Nat) :=
  if m = "pk.f" then [wEv m "pf" (-10) none]
  else if m = "pk.l" then [wEv m "pl" 10 none]
  else if m = "pk.m" then [wEv m "pd" 0 none, wEv m "pn" 0 none]
  else if m = "pk.lb" then
    [wEv m "a1" 0 none, wEv m "b1" 0 (some "x"), wEv m "b2" 0 (some "x")]
  else if m = "qk.al" then [wEv m "z1" 0 (some "y")]
  else []

/-- Exception raised by each module of the example loader. -/
def wExc (m : String) : Option PyExc :=
  if m = "pk.f" ∨ m = "pk.l" ∨ m = "pk.m" ∨ m = "pk.lb" ∨ m = "pk.n" ∨ m = "qk.al" then
    none
  else if m = "pk.e" then some (PyExc.importError "No module named q")
  else some (PyExc.importError ("No module named " ++ pyRepr m))

/-- The example loader. -/
def wLoader : Loader Nat :=
  { load := fun m => ⟨wRegs m, wExc m⟩
    contents := fun q =>
      if q = "pk" then
        Except.ok ["f.py", "l.py", "m.py", "lb.py", "n.py", "e.py", "_h.py", "t.txt"]
      else if q = "qk" then Except.ok ["al.py"]
      else Except.error (PyExc.importError ("No module named " ++ pyRepr q)) }

/-- The empty starting state. -/
def wSt : St Nat := ⟨[], []⟩

/-- The record stored for one function of the example plug-in `pk.lb`. -/
def wRec (n : String) (lab : Option String) : PluginInfo Nat :=
  regRecord 0 lab (some "md")
    { module := "pk.lb", name := n, doc := some "d", call := 0 } "pk" "lb"

/-- The stored function dictionary of the example plug-in `pk.lb`. -/
def wPi : FuncDict Nat :=
  [("a1", wRec "a1" none), ("b1", wRec "b1" (some "x")), ("b2", wRec "b2" (some "x"))]

/-- The record stored for the only (labeled) function of `qk.al`. -/
def wRecQ : PluginInfo Nat :=
  regRecord 0 (some "y") (some "md")
    { module := "qk.al", name := "z1", doc := some "d", call := 0 } "qk" "al"

theorem wLoader_WFL : ∀ m, ∀ e ∈ (wLoader.load m).regs, e.func.module = m := by
  intro m e he
  have he2 : e ∈ wRegs m := he
  unfold wRegs at he2
  split at he2
  · fin_cases he2
    rfl
  · split at he2
    · fin_cases he2
      rfl
    · split at he2
      · fin_cases he2 <;> rfl
      · split at he2
        · fin_cases he2 <;> rfl
        · split at he2
          · fin_cases he2
            rfl
          · simp at he2

/-- Witness for C2: the label-`"x"` partition of `pk.lb` is `["b1", "b2"]`,
and the default resolution equals the explicit `"b1"` lookup. -/
theorem claim_C2_witness :
    (funcs wLoader wSt "pk" "lb" (some "x")).1 = Except.ok ["b1", "b2"] ∧
    info wLoader wSt "pk" "lb" none (some "x")
      = info wLoader wSt "pk" "lb" (some "b1") (some "x") :=
  ⟨rfl, (claim_C2_default_function_resolution wLoader wSt "pk" "lb" (some "x")).1
    "b1" ["b2"] rfl⟩

/-- Witness for C3: `names` on plug-ins with sort values -10, 0, 0, 10
returns the -10 one first, the 10 one last, ties in registration order. -/
theorem claim_C3_witness :
    names wLoader wSt "pk" = (Except.ok ["f", "m", "lb", "l"], (names wLoader wSt "pk").2) ∧
    (∃ (ks : List String) (v : String → Int),
      (∃ pkgd, dictLookup (names wLoader wSt "pk").2.plugins "pk" = some pkgd
        ∧ ks = dictKeys pkgd) ∧
      (∀ p ∈ ks, ∃ r, info wLoader (names wLoader wSt "pk").2 "pk" p none none
          = (Except.ok r, (names wLoader wSt "pk").2) ∧ v p = r.sort_value) ∧
      List.Perm ["f", "m", "lb", "l"] ks ∧
      List.Pairwise (fun a b => v a ≤ v b) (["f", "m", "lb", "l"] : List String) ∧
      (∀ c : Int, (["f", "m", "lb", "l"] : List String).filter (fun p => v p = c)
        = ks.filter (fun p => v p = c))) :=
  ⟨rfl, claim_C3_names_stable_sort wLoader wSt "pk" ["f", "m", "lb", "l"]
    (names wLoader wSt "pk").2 rfl⟩

/-- A loader with a member whose top-level code raises a non-`ImportError`
exception (a `ValueError`). -/
def vLoader : Loader Nat :=
  { load := fun m =>
      if m = "q.a" then ⟨[], some (PyExc.other "ValueError")⟩ else ⟨[], none⟩
    contents := fun p =>
      if p = "q" then Except.ok ["a.py", "b.py"]
      else Except.error (PyExc.importError ("No module named " ++ pyRepr p)) }

/-- Counterexample for C4 as stated: a member whose own top-level code
raises a `ValueError` during the per-member loop is NOT caught — the whole
`_import_all` call fails on account of that one member, and the sibling
member `b.py` is never discovered. -/
theorem claim_C4_counterexample :
    (_import_all vLoader ⟨[], []⟩ "q").1
      = Except.error (Failure.py (PyExc.other "ValueError")) := rfl

/-- Witness for C4 (amended): the member `pk.e` fails with an unmatched
`ImportError`; the loop discards it and continues, and no `ImportError` can
escape `_import_all`. -/
theorem claim_C4_witness :
    _import wLoader wSt "pk" "e"
        = (Except.error (Failure.py (PyExc.importError "No module named q")),
           ⟨[], ["pk.e"]⟩) ∧
    (importLoop wLoader wSt "pk" ["e"] = importLoop wLoader ⟨[], ["pk.e"]⟩ "pk" [] ∧
      ∀ r s2, _import_all wLoader wSt "pk" = (r, s2) →
        ∀ msg, r ≠ Except.error (Failure.py (PyExc.importError msg))) :=
  ⟨rfl, claim_C4_import_all_tolerates_import_errors wLoader wSt ⟨[], ["pk.e"]⟩
    "pk" "e" [] "No module named q" rfl⟩

/-- Witness for C5: the `pk.lb` plug-in with one unlabeled and two
`"x"`-labeled functions. -/
theorem claim_C5_witness :
    WFRegistry wSt.plugins ∧
    funcs wLoader wSt "pk" "lb" (some "x")
      = (Except.ok ["b1", "b2"], (funcs wLoader wSt "pk" "lb" (some "x")).2) ∧
    labels wLoader wSt "pk" "lb"
      = (Except.ok ({"x"} : Finset String), (labels wLoader wSt "pk" "lb").2) ∧
    (∃ pi, (dictLookup (funcs wLoader wSt "pk" "lb" (some "x")).2.plugins "pk").bind
          (fun d => dictLookup d "lb") = some pi ∧
      List.Sublist ["b1", "b2"] (dictKeys pi) ∧
      (∀ f r, dictLookup pi f = some r →
        (f ∈ (["b1", "b2"] : List String) ↔ r.label = some "x")) ∧
      (∀ x, x ∈ ({"x"} : Finset String) ↔ ∃ fr ∈ pi, fr.2.label = some x)) :=
  ⟨WFRegistry_nil, rfl, rfl,
    claim_C5_label_partitioning wLoader wSt "pk" "lb" (some "x") ["b1", "b2"] {"x"}
      (funcs wLoader wSt "pk" "lb" (some "x")).2 (labels wLoader wSt "pk" "lb").2
      WFRegistry_nil rfl rfl⟩

/-- Witness for C6: `a1` exists in `pk.lb` but is unlabeled, so requesting
it with label `"x"` fails. -/
theorem claim_C6_witness :
    _import wLoader wSt "pk" "lb" = (Except.ok (), (_import wLoader wSt "pk" "lb").2) ∧
    (dictLookup (_import wLoader wSt "pk" "lb").2.plugins "pk").bind
        (fun d => dictLookup d "lb") = some wPi ∧
    (∃ msg, (info wLoader wSt "pk" "lb" (some "a1") (some "x")).1
      = Except.error (Failure.unknownPluginFunction msg)) :=
  ⟨rfl, rfl,
    claim_C6_info_label_double_check wLoader wSt "pk" "lb" "a1" (some "x")
      (_import wLoader wSt "pk" "lb").2 wPi rfl rfl
      (by
        intro r hr
        have hr2 : some (wRec "a1" none) = some r := hr
        injection hr2 with hr2
        rw [← hr2]
        decide)⟩

/-- Witness for C7: a cached plug-in yields `True` without an import; a
missing member converts to `False`; a member registering nothing yields the
cached-after-import value (`False`). -/
theorem claim_C7_witness :
    (exists' wLoader (_import wLoader wSt "pk" "m").2 "pk" "m"
        = (Except.ok true, (_import wLoader wSt "pk" "m").2)) ∧
    (exists' wLoader wSt "pk" "zz" = (Except.ok false, (_import wLoader wSt "pk" "zz").2)) ∧
    (exists' wLoader wSt "pk" "n"
        = (Except.ok (cached (_import wLoader wSt "pk" "n").2.plugins "pk" "n"),
           (_import wLoader wSt "pk" "n").2)) :=
  ⟨(claim_C7_exists_semantics wLoader (_import wLoader wSt "pk" "m").2 "pk" "m").1 rfl,
   (claim_C7_exists_semantics wLoader wSt "pk" "zz").2.1
     ("Plugin " ++ pyRepr "zz" ++ " not found in " ++ pyRepr "pk")
     (_import wLoader wSt "pk" "zz").2 rfl,
   ((claim_C7_exists_semantics wLoader wSt "pk" "n").2.2.2.2
     (_import wLoader wSt "pk" "n").2 rfl rfl).1⟩

/-- Witness for C8: the member `pk.e` raises an `ImportError` matching
neither the module nor the package name, which propagates unchanged. -/
theorem claim_C8_witness :
    cached wSt.plugins "pk" "e" = false ∧
    (wLoader.load ("pk" ++ "." ++ "e")).exc
      = some (PyExc.importError "No module named q") ∧
    strContains "No module named q" (pyRepr ("pk" ++ "." ++ "e")) = false ∧
    strContains "No module named q" (pyRepr "pk") = false ∧
    (_import wLoader wSt "pk" "e").1
      = Except.error (Failure.py (PyExc.importError "No module named q")) :=
  ⟨rfl, rfl, rfl, rfl,
    (((claim_C8_import_one_outcomes wLoader wSt "pk" "e").2 rfl).2.2.1
      "No module named q" rfl).2.2 rfl rfl⟩

/-- Witness for C9: a second `names` call on `pk` returns the identical
list, leaves the registry unchanged and only re-invokes the Loader for the
members not in the store (`n` and `e`). -/
theorem claim_C9_witness :
    names wLoader wSt "pk" = (Except.ok ["f", "m", "lb", "l"], (names wLoader wSt "pk").2) ∧
    (∃ ms, names wLoader (names wLoader wSt "pk").2 "pk"
        = (Except.ok ["f", "m", "lb", "l"],
           ⟨(names wLoader wSt "pk").2.plugins, (names wLoader wSt "pk").2.loaded ++ ms⟩) ∧
      ∀ plug, cached (names wLoader wSt "pk").2.plugins "pk" plug = true →
        ("pk" ++ "." ++ plug) ∉ ms) :=
  ⟨rfl, claim_C9_names_idempotent wLoader wSt "pk" ["f", "m", "lb", "l"]
    (names wLoader wSt "pk").2 wLoader_WFL
    (by
      intro rs hrs
      injection hrs with hrs
      subst hrs
      decide)
    rfl⟩

/-- Witness for C10: package `qk` holds one plug-in whose only function is
labeled, so listing the namespace fails. -/
theorem claim_C10_witness :
    _import_all wLoader wSt "qk" = (Except.ok (), (_import_all wLoader wSt "qk").2) ∧
    dictLookup (_import_all wLoader wSt "qk").2.plugins "qk"
      = some [("al", [("z1", wRecQ)])] ∧
    dictLookup [("al", [("z1", wRecQ)])] "al" = some [("z1", wRecQ)] ∧
    (∀ fr ∈ ([("z1", wRecQ)] : FuncDict Nat), fr.2.label ≠ none) ∧
    (∃ msg, names wLoader wSt "qk"
      = (Except.error (Failure.unknownPluginFunction msg), (_import_all wLoader wSt "qk").2)) :=
  ⟨rfl, rfl, rfl, by decide,
    claim_C10_names_fails_on_all_labeled_plugin wLoader wSt
      (_import_all wLoader wSt "qk").2 "qk" "al" [("al", [("z1", wRecQ)])]
      [("z1", wRecQ)] rfl rfl rfl (by decide)⟩

end PyPlugs
